import Mathlib

/-!
Verification development for the topology synchronization engine of
traefik/hub-agent-kubernetes.

The embedding covers:
* the JSON value model used by `encoding/json`, the canonical marshalling of
  `state.Cluster` (pkg/topology/state), and the JSON Merge Patch builder
  (`jsonpatch.CreateMergePatch` from evanphx/json-patch, as called by
  `Store.buildPatch` in pkg/topology/store/store.go);
* RFC 7396 merge-patch application;
* the sync engine `Store.Write` (pkg/topology/store/store.go) as a state
  machine over an environment supplying `FetchTopology` / `PatchTopology`
  responses, with the backoff retry loop of cenkalti/backoff modelled by an
  explicit retry budget;
* the platform client error classification and the retryablehttp transport
  used by `Client.PatchTopology` (pkg/platform/client.go).

Go maps marshal with byte-wise sorted keys and struct fields marshal in
declaration order; both conventions are reproduced here.  JSON object member
order is semantically irrelevant (RFC 8259), so value-level statements compare
trees after recursively sorting object members, which models a re-serialization
through `map[string]interface{}` as evanphx/json-patch and the platform do.
-/

namespace Hub

/-- JSON values.  Objects carry their members as an ordered association list,
so that both Go's struct marshalling (declaration order) and map marshalling
(sorted keys) can be represented faithfully. -/
inductive Json where
  | null
  | bool (b : Bool)
  | num (n : Int)
  | str (s : String)
  | arr (elems : List Json)
  | obj (fields : List (String × Json))

mutual

/-- Structural equality test for `Json` (deriving is unavailable for this
nested inductive). -/
def Json.beq : Json → Json → Bool
  | .null, .null => true
  | .bool a, .bool b => a == b
  | .num a, .num b => a == b
  | .str a, .str b => a == b
  | .arr a, .arr b => Json.beqList a b
  | .obj a, .obj b => Json.beqFields a b
  | _, _ => false

/-- Positionwise equality test for lists of JSON values. -/
def Json.beqList : List Json → List Json → Bool
  | u :: us, w :: ws => Json.beq u w && Json.beqList us ws
  | [], [] => true
  | _, _ => false

/-- Positionwise equality test for object member lists. -/
def Json.beqFields : List (String × Json) → List (String × Json) → Bool
  | (ka, va) :: ps, (kb, vb) :: qs => ka == kb && Json.beq va vb && Json.beqFields ps qs
  | [], [] => true
  | _, _ => false

end

mutual

theorem Json.beq_iff_eq : ∀ a b : Json, Json.beq a b = true ↔ a = b
  | .null, .null => by simp [Json.beq]
  | .bool _, .bool _ => by simp [Json.beq]
  | .num _, .num _ => by simp [Json.beq]
  | .str _, .str _ => by simp [Json.beq]
  | .arr x, .arr y => by simp [Json.beq, Json.beqList_iff_eq x y]
  | .obj x, .obj y => by simp [Json.beq, Json.beqFields_iff_eq x y]
  | .null, .bool _ | .null, .num _ | .null, .str _ | .null, .arr _ | .null, .obj _
  | .bool _, .null | .bool _, .num _ | .bool _, .str _ | .bool _, .arr _ | .bool _, .obj _
  | .num _, .null | .num _, .bool _ | .num _, .str _ | .num _, .arr _ | .num _, .obj _
  | .str _, .null | .str _, .bool _ | .str _, .num _ | .str _, .arr _ | .str _, .obj _
  | .arr _, .null | .arr _, .bool _ | .arr _, .num _ | .arr _, .str _ | .arr _, .obj _
  | .obj _, .null | .obj _, .bool _ | .obj _, .num _ | .obj _, .str _ | .obj _, .arr _ => by
      simp [Json.beq]

theorem Json.beqList_iff_eq : ∀ xs ys : List Json, Json.beqList xs ys = true ↔ xs = ys
  | [], [] => by simp [Json.beqList]
  | u :: us, w :: ws => by simp [Json.beqList, Json.beq_iff_eq u w, Json.beqList_iff_eq us ws]
  | [], _ :: _ => by simp [Json.beqList]
  | _ :: _, [] => by simp [Json.beqList]

theorem Json.beqFields_iff_eq :
    ∀ xs ys : List (String × Json), Json.beqFields xs ys = true ↔ xs = ys
  | [], [] => by simp [Json.beqFields]
  | (ka, va) :: ps, (kb, vb) :: qs => by
      simp [Json.beqFields, Json.beq_iff_eq va vb, Json.beqFields_iff_eq ps qs, and_assoc]
  | [], _ :: _ => by simp [Json.beqFields]
  | _ :: _, [] => by simp [Json.beqFields]

end

instance : DecidableEq Json := fun a b =>
  decidable_of_iff (Json.beq a b = true) (Json.beq_iff_eq a b)

/-- Byte-wise string order, as `sort.Strings` uses for Go map keys.  UTF-8
byte order coincides with code-point order, so this compares code points. -/
def strLt (a b : String) : Bool :=
  go a.data b.data
where
  go : List Char → List Char → Bool
    | [], [] => false
    | [], _ :: _ => true
    | _ :: _, [] => false
    | c :: cs, d :: ds =>
      if c.toNat < d.toNat then true
      else if d.toNat < c.toNat then false
      else go cs ds

/-- Two lowercase hex digits, as Go's JSON encoder emits in escapes. -/
def hex2 (n : Nat) : String :=
  let digit := fun (d : Nat) =>
    if d < 10 then String.singleton (Char.ofNat (48 + d))
    else String.singleton (Char.ofNat (87 + d))
  digit (n / 16 % 16) ++ digit (n % 16)

/-- Escape one character the way Go's `encoding/json` does with HTML escaping
enabled (the `json.Marshal` default). -/
def escapeChar (c : Char) : String :=
  if c = '"' then "\\\""
  else if c = '\\' then "\\\\"
  else if c = '\n' then "\\n"
  else if c = '\r' then "\\r"
  else if c = '\t' then "\\t"
  else if c = '<' then "\\u003c"
  else if c = '>' then "\\u003e"
  else if c = '&' then "\\u0026"
  else if c.toNat < 32 then "\\u00" ++ hex2 c.toNat
  else if c.toNat = 0x2028 then "\\u2028"
  else if c.toNat = 0x2029 then "\\u2029"
  else String.singleton c

/-- A JSON string literal as Go's encoder writes it. -/
def encodeStringLit (s : String) : String :=
  "\"" ++ String.join (s.data.map escapeChar) ++ "\""

mutual

/-- Compact rendering of a JSON value, byte-for-byte as Go's `json.Marshal`
renders the corresponding Go value (no added whitespace). -/
def encodeJson : Json → String
  | .null => "null"
  | .bool true => "true"
  | .bool false => "false"
  | .num n => toString n
  | .str s => encodeStringLit s
  | .arr xs => "[" ++ encodeArr xs ++ "]"
  | .obj fs => "\x7b" ++ encodeObj fs ++ "\x7d"

/-- Comma-separated rendering of array elements. -/
def encodeArr : List Json → String
  | [] => ""
  | [x] => encodeJson x
  | x :: y :: ys => encodeJson x ++ "," ++ encodeArr (y :: ys)

/-- Comma-separated rendering of object members. -/
def encodeObj : List (String × Json) → String
  | [] => ""
  | [(k, v)] => encodeStringLit k ++ ":" ++ encodeJson v
  | (k, v) :: q :: qs => encodeStringLit k ++ ":" ++ encodeJson v ++ "," ++ encodeObj (q :: qs)

end

/-- Insert a member into an association list ordered by `strLt` on keys. -/
def insertPair (p : String × Json) : List (String × Json) → List (String × Json)
  | [] => [p]
  | q :: qs => if strLt p.1 q.1 then p :: q :: qs else q :: insertPair p qs

/-- Insertion sort of object members by key. -/
def sortPairs : List (String × Json) → List (String × Json)
  | [] => []
  | p :: ps => insertPair p (sortPairs ps)

mutual

/-- Recursively sort every object's members by key.  This is the canonical
form a JSON document takes after passing through a Go `map[string]interface{}`
and being re-marshalled, as happens inside evanphx/json-patch and on the
platform side. -/
def sortJson : Json → Json
  | .null => .null
  | .bool b => .bool b
  | .num n => .num n
  | .str s => .str s
  | .arr xs => .arr (sortArr xs)
  | .obj fs => .obj (sortPairs (sortFields fs))

/-- Sort the values of array elements recursively. -/
def sortArr : List Json → List Json
  | [] => []
  | x :: xs => sortJson x :: sortArr xs

/-- Sort the values of object members recursively (keys untouched here). -/
def sortFields : List (String × Json) → List (String × Json)
  | [] => []
  | (k, v) :: ps => (k, sortJson v) :: sortFields ps

end

/-- Keys appear in strictly increasing byte order (so no duplicates). -/
def keysSorted : List (String × Json) → Bool
  | [] => true
  | [_] => true
  | (k, _) :: (k', v') :: ps => strLt k k' && keysSorted ((k', v') :: ps)

mutual

/-- A value is canonical when every object in it has strictly sorted keys. -/
def canonical : Json → Bool
  | .null => true
  | .bool _ => true
  | .num _ => true
  | .str _ => true
  | .arr xs => canonicalArr xs
  | .obj fs => keysSorted fs && canonicalFields fs

/-- All array elements are canonical. -/
def canonicalArr : List Json → Bool
  | [] => true
  | x :: xs => canonical x && canonicalArr xs

/-- All member values are canonical. -/
def canonicalFields : List (String × Json) → Bool
  | [] => true
  | (_, v) :: ps => canonical v && canonicalFields ps

end

mutual

/-- No object member is `null`, recursively through objects.  Nulls inside
arrays are irrelevant to merge-patch application (arrays are atomic), so
arrays are not descended into. -/
def nullFree : Json → Bool
  | .obj fs => nullFreeFields fs
  | _ => true

/-- No member value of this object (recursively) is `null`. -/
def nullFreeFields : List (String × Json) → Bool
  | [] => true
  | (_, v) :: ps => !(v == Json.null) && nullFree v && nullFreeFields ps

end

mutual

/-- Computable size of a JSON value, the step budget for the recursions
below (the derived `sizeOf` of this nested inductive has no executable
code). -/
def jsonSize : Json → Nat
  | .null => 1
  | .bool _ => 1
  | .num _ => 1
  | .str _ => 1
  | .arr xs => 1 + arrSize xs
  | .obj fs => 1 + fieldsSize fs

/-- Combined size of array elements. -/
def arrSize : List Json → Nat
  | [] => 1
  | x :: xs => 1 + jsonSize x + arrSize xs

/-- Combined size of object members. -/
def fieldsSize : List (String × Json) → Nat
  | [] => 1
  | (_, v) :: ps => 2 + jsonSize v + fieldsSize ps

end

/-- Worker for `getDiff`, structurally recursive on a step budget so that it
evaluates inside the kernel; the budget case `0` is never reached when the
budget covers the combined size of the inputs. -/
def getDiffF : Nat → List (String × Json) → List (String × Json) → List (String × Json)
  | 0, _, _ => []
  | _ + 1, [], bs => bs
  | n + 1, (ak, _) :: atl, [] => (ak, Json.null) :: getDiffF n atl []
  | n + 1, (ak, av) :: atl, (bk, bv) :: btl =>
    if strLt ak bk then (ak, Json.null) :: getDiffF n atl ((bk, bv) :: btl)
    else if strLt bk ak then (bk, bv) :: getDiffF n ((ak, av) :: atl) btl
    else
      match av, bv with
      | .obj ao, .obj bo =>
        let d := getDiffF n ao bo
        if d.isEmpty then getDiffF n atl btl else (ak, Json.obj d) :: getDiffF n atl btl
      | av', bv' => if av' = bv' then getDiffF n atl btl else (ak, bv') :: getDiffF n atl btl

/-- Member difference of two canonically sorted JSON objects, following the
`getDiff` of evanphx/json-patch (the library `Store.buildPatch` calls):
a key only in `b` contributes its new value; a key only in `a` contributes
`null` (deletion); a key in both contributes nothing when the values are
equal, the recursive difference when both values are objects and it is
non-empty, and the new value otherwise (arrays are replaced atomically, a
change of type replaces wholesale).  On sorted inputs the output is sorted,
matching the key-sorted marshalling of the patch map.  The budget of
`fieldsSize as + fieldsSize bs` steps always suffices (each recursive call
strictly shrinks the combined size). -/
def getDiff (as bs : List (String × Json)) : List (String × Json) :=
  getDiffF (fieldsSize as + fieldsSize bs) as bs

/-- The member list of an object, and `[]` for every other value (the shape
RFC 7396 gives a non-object target). -/
def objFields : Json → List (String × Json)
  | .obj fs => fs
  | _ => []

theorem jsonSize_pos (v : Json) : 1 ≤ jsonSize v := by
  cases v <;> simp [jsonSize]

theorem fieldsSize_pos (l : List (String × Json)) : 1 ≤ fieldsSize l := by
  cases l with
  | nil => simp [fieldsSize]
  | cons p ps =>
    obtain ⟨k, v⟩ := p
    simp only [fieldsSize]
    omega

theorem fieldsSize_cons (k : String) (v : Json) (ps : List (String × Json)) :
    fieldsSize ((k, v) :: ps) = 2 + jsonSize v + fieldsSize ps := rfl

theorem jsonSize_obj (fs : List (String × Json)) :
    jsonSize (Json.obj fs) = 1 + fieldsSize fs := rfl

theorem fieldsSize_objFields (t : Json) : fieldsSize (objFields t) ≤ jsonSize t := by
  cases t <;> simp [objFields, jsonSize, fieldsSize]

/-- The step budget is irrelevant as long as it covers the combined size. -/
theorem getDiffF_stable : ∀ (n m : Nat) (as bs : List (String × Json)),
    fieldsSize as + fieldsSize bs ≤ n → fieldsSize as + fieldsSize bs ≤ m →
    getDiffF n as bs = getDiffF m as bs := by
  intro n
  induction n with
  | zero =>
    intro m as bs hn
    have := fieldsSize_pos as
    have := fieldsSize_pos bs
    omega
  | succ k ih =>
    intro m as bs hn hm
    have h1 := fieldsSize_pos as
    have h2 := fieldsSize_pos bs
    obtain ⟨m', rfl⟩ : ∃ m', m = m' + 1 := ⟨m - 1, by omega⟩
    match as, bs with
    | [], bs => rfl
    | (ak, av) :: atl, [] =>
      have hva := jsonSize_pos av
      rw [fieldsSize_cons] at hn hm
      simp only [getDiffF]
      rw [ih m' atl [] (by simp [fieldsSize]; omega) (by simp [fieldsSize]; omega)]
    | (ak, av) :: atl, (bk, bv) :: btl =>
      have hva := jsonSize_pos av
      have hvb := jsonSize_pos bv
      have hta := fieldsSize_pos atl
      have htb := fieldsSize_pos btl
      rw [fieldsSize_cons, fieldsSize_cons] at hn hm
      simp only [getDiffF]
      by_cases hab : strLt ak bk = true
      · simp only [hab, if_true]
        rw [ih m' atl ((bk, bv) :: btl) (by rw [fieldsSize_cons]; omega)
          (by rw [fieldsSize_cons]; omega)]
      · simp only [hab, Bool.false_eq_true, if_false]
        by_cases hba : strLt bk ak = true
        · simp only [hba, if_true]
          rw [ih m' ((ak, av) :: atl) btl (by rw [fieldsSize_cons]; omega)
            (by rw [fieldsSize_cons]; omega)]
        · simp only [hba, Bool.false_eq_true, if_false]
          have htl : getDiffF k atl btl = getDiffF m' atl btl :=
            ih m' atl btl (by omega) (by omega)
          match av, bv with
          | .obj ao, .obj bo =>
            have hso : fieldsSize ao + fieldsSize bo ≤ k ∧
                fieldsSize ao + fieldsSize bo ≤ m' := by
              simp only [jsonSize_obj] at hn hm
              omega
            simp only
            rw [ih m' ao bo hso.1 hso.2, htl]
          | .null, bv' => cases bv' <;> simp only <;> rw [htl]
          | .bool b, bv' => cases bv' <;> simp only <;> rw [htl]
          | .num q, bv' => cases bv' <;> simp only <;> rw [htl]
          | .str s, bv' => cases bv' <;> simp only <;> rw [htl]
          | .arr xs, bv' => cases bv' <;> simp only <;> rw [htl]
          | .obj ao, .null => simp only; rw [htl]
          | .obj ao, .bool b => simp only; rw [htl]
          | .obj ao, .num q => simp only; rw [htl]
          | .obj ao, .str s => simp only; rw [htl]
          | .obj ao, .arr xs => simp only; rw [htl]

/-- Evaluating `getDiff` with any sufficient budget. -/
theorem getDiff_eq_getDiffF {n : Nat} (as bs : List (String × Json))
    (h : fieldsSize as + fieldsSize bs ≤ n) : getDiff as bs = getDiffF n as bs :=
  getDiffF_stable _ n as bs le_rfl h

mutual

/-- Worker for `mergePatch`, structurally recursive on a step budget (never
exhausted when the budget covers the combined size). -/
def mergePatchF : Nat → Json → Json → Json
  | 0, _, p => p
  | n + 1, t, p =>
    match p with
    | .obj pf => .obj (mergeFieldsF n (objFields t) pf)
    | p => p

/-- Worker for `mergeFields`. -/
def mergeFieldsF : Nat → List (String × Json) → List (String × Json) → List (String × Json)
  | 0, tf, _ => tf
  | _ + 1, tf, [] => tf
  | n + 1, [], (pk, pv) :: ptl =>
    if pv = Json.null then mergeFieldsF n [] ptl
    else (pk, mergePatchF n Json.null pv) :: mergeFieldsF n [] ptl
  | n + 1, (tk, tv) :: ttl, (pk, pv) :: ptl =>
    if strLt tk pk then (tk, tv) :: mergeFieldsF n ttl ((pk, pv) :: ptl)
    else if strLt pk tk then
      (if pv = Json.null then mergeFieldsF n ((tk, tv) :: ttl) ptl
       else (pk, mergePatchF n Json.null pv) :: mergeFieldsF n ((tk, tv) :: ttl) ptl)
    else
      (if pv = Json.null then mergeFieldsF n ttl ptl
       else (tk, mergePatchF n tv pv) :: mergeFieldsF n ttl ptl)

end

/-- RFC 7396 JSON Merge Patch application: an object patch merges member by
member into the target (a non-object target is treated as `\x7b\x7d`), a
`null` member deletes, and any non-object patch replaces the target
wholesale.  Operates on canonically sorted members so that the result of
merging sorted values is itself sorted. -/
def mergePatch (t p : Json) : Json :=
  mergePatchF (jsonSize t + jsonSize p) t p

/-- Merge sorted patch members into sorted target members. -/
def mergeFields (tf pf : List (String × Json)) : List (String × Json) :=
  mergeFieldsF (fieldsSize tf + fieldsSize pf) tf pf

mutual

theorem mergePatchF_stable : ∀ (n m : Nat) (t p : Json),
    jsonSize t + jsonSize p ≤ n → jsonSize t + jsonSize p ≤ m →
    mergePatchF n t p = mergePatchF m t p
  | n, m, t, p => by
    intro hn hm
    have h1 := jsonSize_pos t
    have h2 := jsonSize_pos p
    obtain ⟨n', rfl⟩ : ∃ n', n = n' + 1 := ⟨n - 1, by omega⟩
    obtain ⟨m', rfl⟩ : ∃ m', m = m' + 1 := ⟨m - 1, by omega⟩
    match p with
    | .obj pf =>
      have hof := fieldsSize_objFields t
      have hs : fieldsSize (objFields t) + fieldsSize pf ≤ n' ∧
          fieldsSize (objFields t) + fieldsSize pf ≤ m' := by
        rw [jsonSize_obj] at hn hm
        omega
      simp only [mergePatchF]
      rw [mergeFieldsF_stable n' m' (objFields t) pf hs.1 hs.2]
    | .null => rfl
    | .bool b => rfl
    | .num q => rfl
    | .str s => rfl
    | .arr xs => rfl
  termination_by n _ _ _ => n

theorem mergeFieldsF_stable : ∀ (n m : Nat) (tf pf : List (String × Json)),
    fieldsSize tf + fieldsSize pf ≤ n → fieldsSize tf + fieldsSize pf ≤ m →
    mergeFieldsF n tf pf = mergeFieldsF m tf pf
  | n, m, tf, pf => by
    intro hn hm
    have h1 := fieldsSize_pos tf
    have h2 := fieldsSize_pos pf
    obtain ⟨n', rfl⟩ : ∃ n', n = n' + 1 := ⟨n - 1, by omega⟩
    obtain ⟨m', rfl⟩ : ∃ m', m = m' + 1 := ⟨m - 1, by omega⟩
    match tf, pf with
    | tf, [] => cases tf <;> rfl
    | [], (pk, pv) :: ptl =>
      have hv := jsonSize_pos pv
      rw [fieldsSize_cons] at hn hm
      simp only [mergeFieldsF]
      rw [mergeFieldsF_stable n' m' [] ptl (by simp [fieldsSize]; omega)
          (by simp [fieldsSize]; omega),
        mergePatchF_stable n' m' Json.null pv (by simp [jsonSize]; omega)
          (by simp [jsonSize]; omega)]
    | (tk, tv) :: ttl, (pk, pv) :: ptl =>
      have hv := jsonSize_pos pv
      have hvt := jsonSize_pos tv
      have htt := fieldsSize_pos ttl
      have htp := fieldsSize_pos ptl
      rw [fieldsSize_cons, fieldsSize_cons] at hn hm
      simp only [mergeFieldsF]
      rw [mergeFieldsF_stable n' m' ttl ((pk, pv) :: ptl)
          (by rw [fieldsSize_cons]; omega) (by rw [fieldsSize_cons]; omega),
        mergeFieldsF_stable n' m' ((tk, tv) :: ttl) ptl
          (by rw [fieldsSize_cons]; omega) (by rw [fieldsSize_cons]; omega),
        mergeFieldsF_stable n' m' ttl ptl (by omega) (by omega),
        mergePatchF_stable n' m' Json.null pv (by simp [jsonSize]; omega)
          (by simp [jsonSize]; omega),
        mergePatchF_stable n' m' tv pv (by omega) (by omega)]
  termination_by n _ _ _ => n

end

theorem mergePatch_eq_mergePatchF {n : Nat} (t p : Json)
    (h : jsonSize t + jsonSize p ≤ n) : mergePatch t p = mergePatchF n t p :=
  mergePatchF_stable _ n t p le_rfl h

theorem mergeFields_eq_mergeFieldsF {n : Nat} (tf pf : List (String × Json))
    (h : fieldsSize tf + fieldsSize pf ≤ n) : mergeFields tf pf = mergeFieldsF n tf pf :=
  mergeFieldsF_stable _ n tf pf le_rfl h

/-- The merge patch that transforms canonical document `a` into canonical
document `b`, as `jsonpatch.CreateMergePatch(a, b)` computes it: both byte
documents pass through `map[string]interface{}` (hence the canonical
sorting), the member difference is taken, and the patch is re-marshalled with
sorted keys. -/
def createMergePatch (a b : Json) : Json :=
  .obj (getDiff (objFields (sortJson a)) (objFields (sortJson b)))

theorem strLt_go_irrefl : ∀ l : List Char, strLt.go l l = false
  | [] => rfl
  | c :: cs => by simp [strLt.go, strLt_go_irrefl cs]

theorem strLt_irrefl (a : String) : strLt a a = false :=
  strLt_go_irrefl a.data

theorem strLt_go_asymm : ∀ x y : List Char, strLt.go x y = true → strLt.go y x = false
  | [], [] => by simp [strLt.go]
  | [], _ :: _ => by simp [strLt.go]
  | _ :: _, [] => by simp [strLt.go]
  | c :: cs, d :: ds => by
      simp only [strLt.go]
      intro h
      split at h
      · next hlt => simp only [if_neg (by omega : ¬ d.toNat < c.toNat), if_pos hlt]
      · next hge =>
        split at h
        · exact absurd h (by simp)
        · next hge2 =>
          simp only [if_neg (by omega : ¬ d.toNat < c.toNat),
            if_neg (by omega : ¬ c.toNat < d.toNat)]
          exact strLt_go_asymm cs ds h

theorem strLt_asymm {a b : String} (h : strLt a b = true) : strLt b a = false :=
  strLt_go_asymm a.data b.data h

theorem strLt_go_conn : ∀ x y : List Char,
    strLt.go x y = false → strLt.go y x = false → x = y
  | [], [] => by simp
  | [], _ :: _ => by simp [strLt.go]
  | _ :: _, [] => by simp [strLt.go]
  | c :: cs, d :: ds => by
      simp only [strLt.go]
      intro h1 h2
      split at h1
      · exact absurd h1 (by simp)
      · next hcd =>
        split at h1
        · next hdc =>
          rw [if_pos hdc] at h2
          exact absurd h2 (by simp)
        · next hdc =>
          rw [if_neg (by omega : ¬ d.toNat < c.toNat),
            if_neg (by omega : ¬ c.toNat < d.toNat)] at h2
          have hc : c = d := by
            rw [← Char.ofNat_toNat c, ← Char.ofNat_toNat d,
              (by omega : c.toNat = d.toNat)]
          rw [hc, strLt_go_conn cs ds h1 h2]

theorem strLt_conn {a b : String} (h1 : strLt a b = false) (h2 : strLt b a = false) :
    a = b := by
  have := strLt_go_conn a.data b.data h1 h2
  cases a; cases b; exact congrArg String.mk this

theorem strLt_go_trans : ∀ x y z : List Char,
    strLt.go x y = true → strLt.go y z = true → strLt.go x z = true
  | [], y, [] => by cases y <;> simp [strLt.go]
  | [], [], _ :: _ => by simp [strLt.go]
  | [], _ :: _, _ :: _ => by simp [strLt.go]
  | _ :: _, [], _ => by simp [strLt.go]
  | _ :: _, _ :: _, [] => by simp [strLt.go]
  | c :: cs, d :: ds, e :: es => by
      simp only [strLt.go]
      intro h1 h2
      by_cases hce : c.toNat < e.toNat
      · simp [hce]
      · have hcd : ¬ d.toNat < c.toNat := by
          intro hdc
          rw [if_neg (by omega), if_pos hdc] at h1
          exact absurd h1 (by simp)
        have hde : ¬ e.toNat < d.toNat := by
          intro hed
          rw [if_neg (by omega), if_pos hed] at h2
          exact absurd h2 (by simp)
        have hcd' : ¬ c.toNat < d.toNat := by omega
        have hde' : ¬ d.toNat < e.toNat := by omega
        rw [if_neg hcd', if_neg (by omega : ¬ d.toNat < c.toNat)] at h1
        rw [if_neg hde', if_neg (by omega : ¬ e.toNat < d.toNat)] at h2
        rw [if_neg hce, if_neg (by omega : ¬ e.toNat < c.toNat)]
        exact strLt_go_trans cs ds es h1 h2

theorem strLt_trans {a b c : String} (h1 : strLt a b = true) (h2 : strLt b c = true) :
    strLt a c = true :=
  strLt_go_trans a.data b.data c.data h1 h2

theorem getDiff_nil_left (bs : List (String × Json)) : getDiff [] bs = bs := by
  rw [getDiff_eq_getDiffF ([] : List (String × Json)) bs
    (show fieldsSize ([] : List (String × Json)) + fieldsSize bs ≤ fieldsSize bs + 1 by
      simp only [fieldsSize]
      omega)]
  rfl

theorem getDiff_cons_nil (ak : String) (av : Json) (atl : List (String × Json)) :
    getDiff ((ak, av) :: atl) [] = (ak, Json.null) :: getDiff atl [] := by
  rw [getDiff_eq_getDiffF ((ak, av) :: atl) []
    (le_rfl : _ ≤ fieldsSize ((ak, av) :: atl) + fieldsSize ([] : List (String × Json)))]
  show (ak, Json.null) :: getDiffF (fieldsSize ((ak, av) :: atl) + 0) atl [] = _
  rw [getDiffF_stable (fieldsSize ((ak, av) :: atl) + 0)
    (fieldsSize atl + fieldsSize ([] : List (String × Json))) atl []
    (by rw [fieldsSize_cons]; have := jsonSize_pos av; simp [fieldsSize]; omega) le_rfl]
  rfl

theorem getDiff_cons_lt (ak bk : String) (av bv : Json) (atl btl : List (String × Json))
    (h : strLt ak bk = true) :
    getDiff ((ak, av) :: atl) ((bk, bv) :: btl)
      = (ak, Json.null) :: getDiff atl ((bk, bv) :: btl) := by
  rw [getDiff_eq_getDiffF ((ak, av) :: atl) ((bk, bv) :: btl)
    (Nat.le_succ _ :
      _ ≤ (fieldsSize ((ak, av) :: atl) + fieldsSize ((bk, bv) :: btl)) + 1)]
  simp only [getDiffF, h, if_true]
  rw [← getDiff_eq_getDiffF atl ((bk, bv) :: btl)
    (by rw [fieldsSize_cons ak av atl]; have := jsonSize_pos av; omega)]

theorem getDiff_cons_gt (ak bk : String) (av bv : Json) (atl btl : List (String × Json))
    (h : strLt ak bk = false) (h2 : strLt bk ak = true) :
    getDiff ((ak, av) :: atl) ((bk, bv) :: btl)
      = (bk, bv) :: getDiff ((ak, av) :: atl) btl := by
  rw [getDiff_eq_getDiffF ((ak, av) :: atl) ((bk, bv) :: btl)
    (Nat.le_succ _ :
      _ ≤ (fieldsSize ((ak, av) :: atl) + fieldsSize ((bk, bv) :: btl)) + 1)]
  simp only [getDiffF, h, h2, if_true, Bool.false_eq_true, if_false]
  rw [← getDiff_eq_getDiffF ((ak, av) :: atl) btl
    (by rw [fieldsSize_cons bk bv btl]; have := jsonSize_pos bv; omega)]

theorem getDiff_cons_objobj (ak bk : String) (ao bo : List (String × Json))
    (atl btl : List (String × Json))
    (h : strLt ak bk = false) (h2 : strLt bk ak = false) :
    getDiff ((ak, Json.obj ao) :: atl) ((bk, Json.obj bo) :: btl)
      = (if (getDiff ao bo).isEmpty then getDiff atl btl
         else (ak, Json.obj (getDiff ao bo)) :: getDiff atl btl) := by
  rw [getDiff_eq_getDiffF ((ak, Json.obj ao) :: atl) ((bk, Json.obj bo) :: btl)
    (Nat.le_succ _ :
      _ ≤ (fieldsSize ((ak, Json.obj ao) :: atl) + fieldsSize ((bk, Json.obj bo) :: btl)) + 1)]
  simp only [getDiffF, h, h2, Bool.false_eq_true, if_false]
  rw [← getDiff_eq_getDiffF ao bo
      (by rw [fieldsSize_cons, fieldsSize_cons, jsonSize_obj, jsonSize_obj]
          have := fieldsSize_pos atl
          have := fieldsSize_pos btl
          omega),
    ← getDiff_eq_getDiffF atl btl
      (by rw [fieldsSize_cons, fieldsSize_cons, jsonSize_obj, jsonSize_obj]
          have := fieldsSize_pos ao
          have := fieldsSize_pos bo
          omega)]

theorem getDiff_cons_other (ak bk : String) (av bv : Json) (atl btl : List (String × Json))
    (h : strLt ak bk = false) (h2 : strLt bk ak = false)
    (hnotobj : ∀ ao bo, av = Json.obj ao → bv = Json.obj bo → False) :
    getDiff ((ak, av) :: atl) ((bk, bv) :: btl)
      = (if av = bv then getDiff atl btl else (ak, bv) :: getDiff atl btl) := by
  rw [getDiff_eq_getDiffF ((ak, av) :: atl) ((bk, bv) :: btl)
    (Nat.le_succ _ :
      _ ≤ (fieldsSize ((ak, av) :: atl) + fieldsSize ((bk, bv) :: btl)) + 1)]
  simp only [getDiffF, h, h2, Bool.false_eq_true, if_false]
  rw [← getDiff_eq_getDiffF atl btl
    (by rw [fieldsSize_cons ak av atl, fieldsSize_cons bk bv btl]
        have := jsonSize_pos av
        have := jsonSize_pos bv
        omega)]

theorem mergePatch_obj (t : Json) (pf : List (String × Json)) :
    mergePatch t (.obj pf) = .obj (mergeFields (objFields t) pf) := by
  rw [mergePatch_eq_mergePatchF t (.obj pf)
    (Nat.le_succ _ : _ ≤ (jsonSize t + jsonSize (Json.obj pf)) + 1)]
  simp only [mergePatchF]
  rw [← mergeFields_eq_mergeFieldsF (objFields t) pf
    (by have := fieldsSize_objFields t
        rw [jsonSize_obj]
        have := fieldsSize_pos pf
        omega)]

theorem mergePatch_nonobj (t p : Json) (hp : ∀ pf, p ≠ Json.obj pf) :
    mergePatch t p = p := by
  rw [mergePatch]
  cases hn : jsonSize t + jsonSize p with
  | zero => rfl
  | succ n =>
    simp only [mergePatchF]

theorem mergeFields_patch_nil (tf : List (String × Json)) : mergeFields tf [] = tf := by
  rw [mergeFields]
  have : fieldsSize tf + fieldsSize ([] : List (String × Json)) = fieldsSize tf + 1 := rfl
  rw [this]
  cases tf <;> rfl

theorem mergeFields_nil_cons (pk : String) (pv : Json) (ptl : List (String × Json)) :
    mergeFields [] ((pk, pv) :: ptl)
      = (if pv = Json.null then mergeFields [] ptl
         else (pk, mergePatch Json.null pv) :: mergeFields [] ptl) := by
  rw [mergeFields_eq_mergeFieldsF ([] : List (String × Json)) ((pk, pv) :: ptl)
    (Nat.le_succ _ :
      _ ≤ (fieldsSize ([] : List (String × Json)) + fieldsSize ((pk, pv) :: ptl)) + 1)]
  simp only [mergeFieldsF]
  rw [← mergeFields_eq_mergeFieldsF ([] : List (String × Json)) ptl
      (by rw [fieldsSize_cons]; have := jsonSize_pos pv; omega),
    ← mergePatch_eq_mergePatchF Json.null pv
      (by rw [fieldsSize_cons]
          have := fieldsSize_pos ptl
          simp only [jsonSize, fieldsSize]
          omega)]

theorem mergeFields_cons_lt (tk pk : String) (tv pv : Json)
    (ttl ptl : List (String × Json)) (h : strLt tk pk = true) :
    mergeFields ((tk, tv) :: ttl) ((pk, pv) :: ptl)
      = (tk, tv) :: mergeFields ttl ((pk, pv) :: ptl) := by
  rw [mergeFields_eq_mergeFieldsF ((tk, tv) :: ttl) ((pk, pv) :: ptl)
    (Nat.le_succ _ :
      _ ≤ (fieldsSize ((tk, tv) :: ttl) + fieldsSize ((pk, pv) :: ptl)) + 1)]
  simp only [mergeFieldsF, h, if_true]
  rw [← mergeFields_eq_mergeFieldsF ttl ((pk, pv) :: ptl)
    (by rw [fieldsSize_cons tk tv ttl]; have := jsonSize_pos tv; omega)]

theorem mergeFields_cons_gt (tk pk : String) (tv pv : Json)
    (ttl ptl : List (String × Json)) (h : strLt tk pk = false) (h2 : strLt pk tk = true) :
    mergeFields ((tk, tv) :: ttl) ((pk, pv) :: ptl)
      = (if pv = Json.null then mergeFields ((tk, tv) :: ttl) ptl
         else (pk, mergePatch Json.null pv) :: mergeFields ((tk, tv) :: ttl) ptl) := by
  rw [mergeFields_eq_mergeFieldsF ((tk, tv) :: ttl) ((pk, pv) :: ptl)
    (Nat.le_succ _ :
      _ ≤ (fieldsSize ((tk, tv) :: ttl) + fieldsSize ((pk, pv) :: ptl)) + 1)]
  simp only [mergeFieldsF, h, h2, if_true, Bool.false_eq_true, if_false]
  rw [← mergeFields_eq_mergeFieldsF ((tk, tv) :: ttl) ptl
      (by rw [fieldsSize_cons pk pv ptl]; have := jsonSize_pos pv; omega),
    ← mergePatch_eq_mergePatchF Json.null pv
      (by rw [fieldsSize_cons tk tv ttl, fieldsSize_cons pk pv ptl]
          have := jsonSize_pos tv
          have := fieldsSize_pos ttl
          have := fieldsSize_pos ptl
          simp only [jsonSize]
          omega)]

theorem mergeFields_cons_eq (tk pk : String) (tv pv : Json)
    (ttl ptl : List (String × Json)) (h : strLt tk pk = false) (h2 : strLt pk tk = false) :
    mergeFields ((tk, tv) :: ttl) ((pk, pv) :: ptl)
      = (if pv = Json.null then mergeFields ttl ptl
         else (tk, mergePatch tv pv) :: mergeFields ttl ptl) := by
  rw [mergeFields_eq_mergeFieldsF ((tk, tv) :: ttl) ((pk, pv) :: ptl)
    (Nat.le_succ _ :
      _ ≤ (fieldsSize ((tk, tv) :: ttl) + fieldsSize ((pk, pv) :: ptl)) + 1)]
  simp only [mergeFieldsF, h, h2, Bool.false_eq_true, if_false]
  rw [← mergeFields_eq_mergeFieldsF ttl ptl
      (by rw [fieldsSize_cons tk tv ttl, fieldsSize_cons pk pv ptl]
          have := jsonSize_pos tv
          have := jsonSize_pos pv
          omega),
    ← mergePatch_eq_mergePatchF tv pv
      (by rw [fieldsSize_cons tk tv ttl, fieldsSize_cons pk pv ptl]
          have := fieldsSize_pos ttl
          have := fieldsSize_pos ptl
          omega)]

theorem objFields_nonobj (v : Json) (hv : ∀ fs, v ≠ Json.obj fs) : objFields v = [] := by
  cases v <;> first
    | rfl
    | exact absurd rfl (hv _)

theorem keysSorted_cons {k : String} {v : Json} {ps : List (String × Json)}
    (h : keysSorted ((k, v) :: ps) = true) :
    keysSorted ps = true ∧ ∀ q ∈ ps, strLt k q.1 = true := by
  induction ps generalizing k v with
  | nil => exact ⟨rfl, by simp⟩
  | cons q qs ih =>
    obtain ⟨qk, qv⟩ := q
    have h1 : strLt k qk = true ∧ keysSorted ((qk, qv) :: qs) = true := by
      simpa [keysSorted] using h
    obtain ⟨hts, hall⟩ := ih h1.2
    refine ⟨h1.2, ?_⟩
    intro r hr
    rcases List.mem_cons.mp hr with rfl | hr
    · exact h1.1
    · exact strLt_trans h1.1 (hall r hr)

theorem canonicalFields_cons {k : String} {v : Json} {ps : List (String × Json)} :
    canonicalFields ((k, v) :: ps) = (canonical v && canonicalFields ps) := by
  rw [canonicalFields.eq_def]

theorem nullFreeFields_cons {k : String} {v : Json} {ps : List (String × Json)} :
    nullFreeFields ((k, v) :: ps) = (!(v == Json.null) && nullFree v && nullFreeFields ps) := by
  rw [nullFreeFields.eq_def]

theorem canonical_obj {fs : List (String × Json)} :
    canonical (.obj fs) = (keysSorted fs && canonicalFields fs) := by
  rw [canonical.eq_def]

theorem nullFree_obj {fs : List (String × Json)} :
    nullFree (.obj fs) = nullFreeFields fs := by
  rw [nullFree.eq_def]

/-- Every key appearing in the member difference comes from one of the two
documents. -/
theorem getDiff_keys : ∀ (n : Nat) (as bs : List (String × Json)),
    as.length + bs.length ≤ n →
    ∀ q ∈ getDiff as bs, (∃ p ∈ as, q.1 = p.1) ∨ (∃ p ∈ bs, q.1 = p.1) := by
  intro n
  induction n with
  | zero =>
    intro as bs hlen q hq
    have : as = [] ∧ bs = [] := by
      constructor <;> [cases as; cases bs] <;> simp_all
    obtain ⟨rfl, rfl⟩ := this
    simp [getDiff_nil_left] at hq
  | succ m ih =>
    intro as bs hlen q hq
    match as, bs with
    | [], bs =>
      rw [getDiff_nil_left] at hq
      exact Or.inr ⟨q, hq, rfl⟩
    | (ak, av) :: atl, [] =>
      rw [getDiff_cons_nil] at hq
      rcases List.mem_cons.mp hq with rfl | hq
      · exact Or.inl ⟨(ak, av), by simp, rfl⟩
      · rcases ih atl [] (by simp only [List.length_cons, List.length_nil] at hlen ⊢; omega) q hq with ⟨p, hp, hqp⟩ | ⟨p, hp, _⟩
        · exact Or.inl ⟨p, by simp [hp], hqp⟩
        · simp at hp
    | (ak, av) :: atl, (bk, bv) :: btl =>
      by_cases hab : strLt ak bk = true
      · rw [getDiff_cons_lt _ _ _ _ _ _ hab] at hq
        rcases List.mem_cons.mp hq with rfl | hq
        · exact Or.inl ⟨(ak, av), by simp, rfl⟩
        · rcases ih atl ((bk, bv) :: btl) (by simp only [List.length_cons, List.length_nil] at hlen ⊢; omega) q hq with
            ⟨p, hp, hqp⟩ | ⟨p, hp, hqp⟩
          · exact Or.inl ⟨p, by simp [hp], hqp⟩
          · exact Or.inr ⟨p, hp, hqp⟩
      · by_cases hba : strLt bk ak = true
        · rw [getDiff_cons_gt _ _ _ _ _ _ (by simpa using hab) hba] at hq
          rcases List.mem_cons.mp hq with rfl | hq
          · exact Or.inr ⟨(bk, bv), by simp, rfl⟩
          · rcases ih ((ak, av) :: atl) btl (by simp only [List.length_cons, List.length_nil] at hlen ⊢; omega) q hq with
              ⟨p, hp, hqp⟩ | ⟨p, hp, hqp⟩
            · exact Or.inl ⟨p, hp, hqp⟩
            · exact Or.inr ⟨p, by simp [hp], hqp⟩
        · have hrest : ∀ hq' : q ∈ getDiff atl btl,
              (∃ p ∈ (ak, av) :: atl, q.1 = p.1) ∨ (∃ p ∈ (bk, bv) :: btl, q.1 = p.1) := by
            intro hq'
            rcases ih atl btl (by simp only [List.length_cons, List.length_nil] at hlen ⊢; omega) q hq' with
              ⟨p, hp, hqp⟩ | ⟨p, hp, hqp⟩
            · exact Or.inl ⟨p, by simp [hp], hqp⟩
            · exact Or.inr ⟨p, by simp [hp], hqp⟩
          by_cases hobj : (∃ ao, av = Json.obj ao) ∧ (∃ bo, bv = Json.obj bo)
          · obtain ⟨⟨ao, rfl⟩, ⟨bo, rfl⟩⟩ := hobj
            rw [getDiff_cons_objobj _ _ _ _ _ _ (by simpa using hab) (by simpa using hba)]
              at hq
            by_cases hd : (getDiff ao bo).isEmpty
            · rw [if_pos hd] at hq
              exact hrest hq
            · rw [if_neg hd] at hq
              rcases List.mem_cons.mp hq with rfl | hq
              · exact Or.inl ⟨(ak, Json.obj ao), by simp, rfl⟩
              · exact hrest hq
          · have hno : ∀ ao bo, av = Json.obj ao → bv = Json.obj bo → False := by
              intro ao bo h1 h2
              exact hobj ⟨⟨ao, h1⟩, ⟨bo, h2⟩⟩
            rw [getDiff_cons_other _ _ _ _ _ _ (by simpa using hab) (by simpa using hba) hno]
              at hq
            by_cases hv : av = bv
            · rw [if_pos hv] at hq
              exact hrest hq
            · rw [if_neg hv] at hq
              rcases List.mem_cons.mp hq with rfl | hq
              · exact Or.inl ⟨(ak, av), by simp, rfl⟩
              · exact hrest hq

/-- An empty member difference means the two canonical objects are equal. -/
theorem getDiff_eq_nil : ∀ (n : Nat) (as bs : List (String × Json)),
    sizeOf as + sizeOf bs ≤ n →
    keysSorted as = true → canonicalFields as = true →
    keysSorted bs = true → canonicalFields bs = true →
    getDiff as bs = [] → as = bs := by
  intro n
  induction n with
  | zero =>
    intro as bs hlen
    have h1 : 0 < sizeOf as := by cases as <;> simp
    have h2 : 0 < sizeOf bs := by cases bs <;> simp
    omega
  | succ m ih =>
    intro as bs hlen hsa hca hsb hcb hdiff
    match as, bs with
    | [], bs =>
      rw [getDiff_nil_left] at hdiff
      rw [hdiff]
    | (ak, av) :: atl, [] =>
      rw [getDiff_cons_nil] at hdiff
      exact absurd hdiff (by simp)
    | (ak, av) :: atl, (bk, bv) :: btl =>
      by_cases hab : strLt ak bk = true
      · rw [getDiff_cons_lt _ _ _ _ _ _ hab] at hdiff
        exact absurd hdiff (by simp)
      · by_cases hba : strLt bk ak = true
        · rw [getDiff_cons_gt _ _ _ _ _ _ (by simpa using hab) hba] at hdiff
          exact absurd hdiff (by simp)
        · have hk : ak = bk := strLt_conn (by simpa using hab) (by simpa using hba)
          have hsz : sizeOf atl + sizeOf btl ≤ m := by
            simp only [List.cons.sizeOf_spec, Prod.mk.sizeOf_spec] at hlen
            omega
          have hcava : canonical av = true ∧ canonicalFields atl = true := by
            simpa [canonicalFields_cons] using hca
          have hcbvb : canonical bv = true ∧ canonicalFields btl = true := by
            simpa [canonicalFields_cons] using hcb
          have htails : getDiff atl btl = [] → atl = btl := by
            intro hd
            exact ih atl btl hsz (keysSorted_cons hsa).1 hcava.2
              (keysSorted_cons hsb).1 hcbvb.2 hd
          by_cases hobj : (∃ ao, av = Json.obj ao) ∧ (∃ bo, bv = Json.obj bo)
          · obtain ⟨⟨ao, rfl⟩, ⟨bo, rfl⟩⟩ := hobj
            rw [getDiff_cons_objobj _ _ _ _ _ _ (by simpa using hab) (by simpa using hba)]
              at hdiff
            by_cases hd : (getDiff ao bo).isEmpty
            · have hoo : ao = bo := by
                have hszo : sizeOf ao + sizeOf bo ≤ m := by
                  simp only [List.cons.sizeOf_spec, Prod.mk.sizeOf_spec,
                    Json.obj.sizeOf_spec] at hlen
                  omega
                have hcao : keysSorted ao = true ∧ canonicalFields ao = true := by
                  simpa [canonical_obj] using hcava.1
                have hcbo : keysSorted bo = true ∧ canonicalFields bo = true := by
                  simpa [canonical_obj] using hcbvb.1
                exact ih ao bo hszo hcao.1 hcao.2 hcbo.1 hcbo.2
                  (List.isEmpty_iff.mp hd)
              rw [if_pos hd] at hdiff
              rw [hk, hoo, htails hdiff]
            · rw [if_neg hd] at hdiff
              exact absurd hdiff (by simp)
          · have hno : ∀ ao bo, av = Json.obj ao → bv = Json.obj bo → False := by
              intro ao bo h1 h2
              exact hobj ⟨⟨ao, h1⟩, ⟨bo, h2⟩⟩
            rw [getDiff_cons_other _ _ _ _ _ _ (by simpa using hab) (by simpa using hba) hno]
              at hdiff
            by_cases hv : av = bv
            · rw [if_pos hv] at hdiff
              rw [hk, hv, htails hdiff]
            · rw [if_neg hv] at hdiff
              exact absurd hdiff (by simp)

/-- Merging a null-free canonical patch into nothing reproduces the patch:
the object case of RFC 7396 builds the patch value field by field from an
empty target, and nothing is deleted because nothing is null. -/
theorem mergePatch_null_of_nullFree : ∀ (n : Nat),
    (∀ v : Json, sizeOf v ≤ n → canonical v = true → nullFree v = true →
      mergePatch Json.null v = v) ∧
    (∀ fs : List (String × Json), sizeOf fs ≤ n → canonicalFields fs = true →
      nullFreeFields fs = true → mergeFields [] fs = fs) := by
  intro n
  induction n with
  | zero =>
    constructor
    · intro v hv
      have : 0 < sizeOf v := by cases v <;> simp
      omega
    · intro fs hfs
      have : 0 < sizeOf fs := by cases fs <;> simp
      omega
  | succ m ih =>
    constructor
    · intro v hv hcv hnv
      match v with
      | .null => rw [mergePatch_nonobj _ _ (by simp)]
      | .bool b => rw [mergePatch_nonobj _ _ (by simp)]
      | .num k => rw [mergePatch_nonobj _ _ (by simp)]
      | .str s => rw [mergePatch_nonobj _ _ (by simp)]
      | .arr xs => rw [mergePatch_nonobj _ _ (by simp)]
      | .obj fs =>
        rw [mergePatch_obj]
        have hsz : sizeOf fs ≤ m := by
          simp only [Json.obj.sizeOf_spec] at hv
          omega
        have hcf : canonicalFields fs = true := by
          have := (by simpa [canonical_obj] using hcv :
            keysSorted fs = true ∧ canonicalFields fs = true)
          exact this.2
        have hnf : nullFreeFields fs = true := by simpa [nullFree_obj] using hnv
        rw [show objFields Json.null = [] from rfl, ih.2 fs hsz hcf hnf]
    · intro fs hfs hcf hnf
      match fs with
      | [] => exact mergeFields_patch_nil []
      | (pk, pv) :: ptl =>
        have hparts : (!(pv == Json.null) && nullFree pv && nullFreeFields ptl) = true := by
          simpa [nullFreeFields_cons] using hnf
        have hpvn : pv ≠ Json.null := by
          intro hh
          simp [hh] at hparts
        have hcparts : canonical pv = true ∧ canonicalFields ptl = true := by
          simpa [canonicalFields_cons] using hcf
        have hszv : sizeOf pv ≤ m := by
          simp only [List.cons.sizeOf_spec, Prod.mk.sizeOf_spec] at hfs
          omega
        have hszl : sizeOf ptl ≤ m := by
          simp only [List.cons.sizeOf_spec, Prod.mk.sizeOf_spec] at hfs
          omega
        rw [mergeFields_nil_cons, if_neg hpvn,
          ih.1 pv hszv hcparts.1 (by simp_all),
          ih.2 ptl hszl hcparts.2 (by simp_all)]

/-- When every patch key is above the target's head key, the head passes
through the merge untouched. -/
theorem mergeFields_head_lt (tk : String) (tv : Json) (ttl pf : List (String × Json))
    (h : ∀ q ∈ pf, strLt tk q.1 = true) :
    mergeFields ((tk, tv) :: ttl) pf = (tk, tv) :: mergeFields ttl pf := by
  match pf with
  | [] => rw [mergeFields_patch_nil, mergeFields_patch_nil]
  | (pk, pv) :: ptl =>
    exact mergeFields_cons_lt _ _ _ _ _ _ (h (pk, pv) (by simp))

/-- Heart of the round-trip law: on canonically sorted objects, applying the
member difference `getDiff as bs` to `as` by RFC 7396 merging reproduces `bs`
exactly, provided `bs` carries no null members (a null member of `bs` would be
emitted into the patch and then deleted rather than set by the merge). -/
theorem mergeFields_getDiff : ∀ (n : Nat) (as bs : List (String × Json)),
    sizeOf as + sizeOf bs ≤ n →
    keysSorted as = true → canonicalFields as = true →
    keysSorted bs = true → canonicalFields bs = true →
    nullFreeFields bs = true →
    mergeFields as (getDiff as bs) = bs := by
  intro n
  induction n with
  | zero =>
    intro as bs hlen
    have h1 : 0 < sizeOf as := by cases as <;> simp
    have h2 : 0 < sizeOf bs := by cases bs <;> simp
    omega
  | succ m ih =>
    intro as bs hlen hsa hca hsb hcb hnb
    match as, bs with
    | [], bs =>
      rw [getDiff_nil_left]
      exact (mergePatch_null_of_nullFree (sizeOf bs)).2 bs le_rfl hcb hnb
    | (ak, av) :: atl, [] =>
      rw [getDiff_cons_nil,
        mergeFields_cons_eq _ _ _ _ _ _ (strLt_irrefl ak) (strLt_irrefl ak), if_pos rfl]
      refine ih atl [] ?_ (keysSorted_cons hsa).1
        (by simpa [canonicalFields_cons] using hca : canonical av = true ∧ _).2 rfl rfl rfl
      simp only [List.cons.sizeOf_spec, Prod.mk.sizeOf_spec] at hlen ⊢
      omega
    | (ak, av) :: atl, (bk, bv) :: btl =>
      have hcava : canonical av = true ∧ canonicalFields atl = true := by
        simpa [canonicalFields_cons] using hca
      have hcbvb : canonical bv = true ∧ canonicalFields btl = true := by
        simpa [canonicalFields_cons] using hcb
      have hnbvb : bv ≠ Json.null ∧ nullFree bv = true ∧ nullFreeFields btl = true := by
        have h1 : (!(bv == Json.null) && nullFree bv && nullFreeFields btl) = true := by
          simpa [nullFreeFields_cons] using hnb
        refine ⟨?_, ?_, ?_⟩ <;> [skip; simp_all; simp_all]
        intro hh
        simp [hh] at h1
      by_cases hab : strLt ak bk = true
      · rw [getDiff_cons_lt _ _ _ _ _ _ hab,
          mergeFields_cons_eq _ _ _ _ _ _ (strLt_irrefl ak) (strLt_irrefl ak), if_pos rfl]
        refine ih atl ((bk, bv) :: btl) ?_ (keysSorted_cons hsa).1 hcava.2 hsb hcb hnb
        simp only [List.cons.sizeOf_spec, Prod.mk.sizeOf_spec] at hlen ⊢
        omega
      · by_cases hba : strLt bk ak = true
        · rw [getDiff_cons_gt _ _ _ _ _ _ (by simpa using hab) hba,
            mergeFields_cons_gt _ _ _ _ _ _ (by simpa using hab) hba, if_neg hnbvb.1,
            (mergePatch_null_of_nullFree (sizeOf bv)).1 bv le_rfl hcbvb.1 hnbvb.2.1]
          have htl : mergeFields ((ak, av) :: atl) (getDiff ((ak, av) :: atl) btl) = btl := by
            refine ih ((ak, av) :: atl) btl ?_ hsa hca (keysSorted_cons hsb).1
              hcbvb.2 hnbvb.2.2
            simp only [List.cons.sizeOf_spec, Prod.mk.sizeOf_spec] at hlen ⊢
            omega
          rw [htl]
        · have hk : ak = bk := strLt_conn (by simpa using hab) (by simpa using hba)
          subst hk
          have hsz : sizeOf atl + sizeOf btl ≤ m := by
            simp only [List.cons.sizeOf_spec, Prod.mk.sizeOf_spec] at hlen
            omega
          have htl : mergeFields atl (getDiff atl btl) = btl :=
            ih atl btl hsz (keysSorted_cons hsa).1 hcava.2 (keysSorted_cons hsb).1
              hcbvb.2 hnbvb.2.2
          have hbound : ∀ q ∈ getDiff atl btl, strLt ak q.1 = true := by
            intro q hq
            rcases getDiff_keys (atl.length + btl.length) atl btl le_rfl q hq with
              ⟨p, hp, hqp⟩ | ⟨p, hp, hqp⟩
            · rw [hqp]
              exact (keysSorted_cons hsa).2 p hp
            · rw [hqp]
              exact (keysSorted_cons hsb).2 p hp
          by_cases hobj : (∃ ao, av = Json.obj ao) ∧ (∃ bo, bv = Json.obj bo)
          · obtain ⟨⟨ao, rfl⟩, ⟨bo, rfl⟩⟩ := hobj
            have hcao : keysSorted ao = true ∧ canonicalFields ao = true := by
              simpa [canonical_obj] using hcava.1
            have hcbo : keysSorted bo = true ∧ canonicalFields bo = true := by
              simpa [canonical_obj] using hcbvb.1
            have hnbo : nullFreeFields bo = true := by
              simpa [nullFree_obj] using hnbvb.2.1
            rw [getDiff_cons_objobj _ _ _ _ _ _ (by simpa using hab) (by simpa using hba)]
            by_cases hd : (getDiff ao bo).isEmpty
            · have hoo : ao = bo := by
                refine getDiff_eq_nil (sizeOf ao + sizeOf bo) ao bo le_rfl hcao.1 hcao.2
                  hcbo.1 hcbo.2 (List.isEmpty_iff.mp hd)
              rw [if_pos hd, mergeFields_head_lt _ _ _ _ hbound, htl, hoo]
            · have hszo : sizeOf ao + sizeOf bo ≤ m := by
                simp only [List.cons.sizeOf_spec, Prod.mk.sizeOf_spec,
                  Json.obj.sizeOf_spec] at hlen
                omega
              rw [if_neg hd,
                mergeFields_cons_eq _ _ _ _ _ _ (strLt_irrefl ak) (strLt_irrefl ak),
                if_neg (by simp), mergePatch_obj,
                show objFields (Json.obj ao) = ao from rfl,
                ih ao bo hszo hcao.1 hcao.2 hcbo.1 hcbo.2 hnbo, htl]
          · have hno : ∀ ao bo, av = Json.obj ao → bv = Json.obj bo → False := by
              intro ao bo h1 h2
              exact hobj ⟨⟨ao, h1⟩, ⟨bo, h2⟩⟩
            rw [getDiff_cons_other _ _ _ _ _ _ (by simpa using hab) (by simpa using hba) hno]
            by_cases hv : av = bv
            · rw [if_pos hv, mergeFields_head_lt _ _ _ _ hbound, htl, hv]
            · rw [if_neg hv,
                mergeFields_cons_eq _ _ _ _ _ _ (strLt_irrefl ak) (strLt_irrefl ak),
                if_neg hnbvb.1, htl]
              by_cases hbo : ∃ bo, bv = Json.obj bo
              · obtain ⟨bo, rfl⟩ := hbo
                have hano : ∀ fs, av ≠ Json.obj fs := by
                  intro fs hfs
                  exact hno fs bo hfs rfl
                have hcbo : keysSorted bo = true ∧ canonicalFields bo = true := by
                  simpa [canonical_obj] using hcbvb.1
                have hnbo : nullFreeFields bo = true := by
                  simpa [nullFree_obj] using hnbvb.2.1
                rw [mergePatch_obj, objFields_nonobj av hano,
                  (mergePatch_null_of_nullFree (sizeOf bo)).2 bo le_rfl hcbo.2 hnbo]
              · rw [mergePatch_nonobj av bv (by intro pf hpf; exact hbo ⟨pf, hpf⟩)]

/-- Pairwise-distinct member keys (what a Go map guarantees). -/
def keysDistinct : List (String × Json) → Bool
  | [] => true
  | (k, _) :: ps => ps.all (fun q => !(k == q.1)) && keysDistinct ps

mutual

/-- Every object in the value has pairwise-distinct keys, as holds for any
value marshalled from Go structs and maps. -/
def nodupKeysJson : Json → Bool
  | .obj fs => keysDistinct fs && nodupKeysFields fs
  | .arr xs => nodupKeysArr xs
  | _ => true

/-- All array elements satisfy `nodupKeysJson`. -/
def nodupKeysArr : List Json → Bool
  | [] => true
  | x :: xs => nodupKeysJson x && nodupKeysArr xs

/-- All member values satisfy `nodupKeysJson`. -/
def nodupKeysFields : List (String × Json) → Bool
  | [] => true
  | (_, v) :: ps => nodupKeysJson v && nodupKeysFields ps

end

theorem mem_insertPair {q p : String × Json} {l : List (String × Json)} :
    q ∈ insertPair p l ↔ q = p ∨ q ∈ l := by
  induction l with
  | nil => simp [insertPair]
  | cons r rs ih =>
    by_cases h : strLt p.1 r.1
    · simp [insertPair, h]
    · simp only [insertPair, if_neg h, List.mem_cons, ih]
      tauto

theorem mem_sortPairs {q : (String × Json)} {l : List (String × Json)} :
    q ∈ sortPairs l ↔ q ∈ l := by
  induction l with
  | nil => simp [sortPairs]
  | cons p ps ih => simp [sortPairs, mem_insertPair, ih]

theorem keysSorted_cons_intro {k : String} {v : Json} {l : List (String × Json)}
    (hl : keysSorted l = true) (hall : ∀ q ∈ l, strLt k q.1 = true) :
    keysSorted ((k, v) :: l) = true := by
  match l with
  | [] => rfl
  | (qk, qv) :: qs =>
    simp only [keysSorted, Bool.and_eq_true]
    exact And.intro (hall (qk, qv) (by simp)) hl

theorem insertPair_sorted {p : String × Json} {l : List (String × Json)}
    (hl : keysSorted l = true) (hne : ∀ q ∈ l, p.1 ≠ q.1) :
    keysSorted (insertPair p l) = true := by
  induction l with
  | nil => rfl
  | cons r rs ih =>
    obtain ⟨rk, rv⟩ := r
    by_cases h : strLt p.1 rk = true
    · obtain ⟨p1, p2⟩ := p
      simpa [insertPair, keysSorted, h] using hl
    · have hrp : strLt rk p.1 = true := by
        rcases Bool.eq_false_or_eq_true (strLt rk p.1) with hh | hh
        · exact hh
        · exact absurd (strLt_conn (by simpa using h) hh) (hne (rk, rv) (by simp))
      simp only [insertPair, if_neg h]
      refine keysSorted_cons_intro (ih (keysSorted_cons hl).1 ?_) ?_
      · intro q hq
        exact hne q (by simp [hq])
      · intro q hq
        rcases mem_insertPair.mp hq with rfl | hq
        · exact hrp
        · exact (keysSorted_cons hl).2 q hq

theorem keysDistinct_spec {k : String} {v : Json} {ps : List (String × Json)}
    (h : keysDistinct ((k, v) :: ps) = true) :
    keysDistinct ps = true ∧ ∀ q ∈ ps, k ≠ q.1 := by
  have h' : (ps.all (fun q => !(k == q.1)) && keysDistinct ps) = true := by
    simpa [keysDistinct] using h
  rw [Bool.and_eq_true] at h'
  refine ⟨h'.2, ?_⟩
  intro q hq
  have := List.all_eq_true.mp h'.1 q hq
  simpa using this

theorem sortPairs_sorted {l : List (String × Json)} (h : keysDistinct l = true) :
    keysSorted (sortPairs l) = true := by
  induction l with
  | nil => rfl
  | cons p ps ih =>
    obtain ⟨pk, pv⟩ := p
    refine insertPair_sorted (ih (keysDistinct_spec h).1) ?_
    intro q hq
    exact (keysDistinct_spec h).2 q (mem_sortPairs.mp hq)

theorem mem_sortFields {q : String × Json} {fs : List (String × Json)} :
    q ∈ sortFields fs ↔ ∃ p ∈ fs, q = (p.1, sortJson p.2) := by
  induction fs with
  | nil => simp [sortFields]
  | cons p ps ih =>
    obtain ⟨pk, pv⟩ := p
    rw [show sortFields ((pk, pv) :: ps) = (pk, sortJson pv) :: sortFields ps from by
      rw [sortFields.eq_def]]
    simp only [List.mem_cons, ih]
    constructor
    · rintro (rfl | ⟨r, hr, rfl⟩)
      · exact ⟨(pk, pv), by simp⟩
      · exact ⟨r, by simp [hr]⟩
    · rintro ⟨r, hr, rfl⟩
      rcases hr with rfl | hr
      · exact Or.inl rfl
      · exact Or.inr ⟨r, hr, rfl⟩

theorem keys_sortFields {fs : List (String × Json)} :
    (sortFields fs).map Prod.fst = fs.map Prod.fst := by
  induction fs with
  | nil => rfl
  | cons p ps ih =>
    obtain ⟨pk, pv⟩ := p
    rw [show sortFields ((pk, pv) :: ps) = (pk, sortJson pv) :: sortFields ps from by
      rw [sortFields.eq_def]]
    simpa using ih

theorem keysDistinct_of_keys_eq : ∀ {fs gs : List (String × Json)},
    fs.map Prod.fst = gs.map Prod.fst → keysDistinct fs = true → keysDistinct gs = true := by
  intro fs
  induction fs with
  | nil =>
    intro gs hk h
    cases gs
    · rfl
    · simp at hk
  | cons p ps ih =>
    intro gs hk h
    obtain ⟨pk, pv⟩ := p
    match gs with
    | [] => rfl
    | (qk, qv) :: qs =>
      simp only [List.map_cons, List.cons.injEq] at hk
      obtain ⟨rfl, hk2⟩ := hk
      have hspec := keysDistinct_spec h
      have : keysDistinct qs = true := ih hk2 hspec.1
      simp only [keysDistinct, Bool.and_eq_true]
      refine ⟨List.all_eq_true.mpr ?_, this⟩
      intro q hq
      have hq1 : q.1 ∈ qs.map Prod.fst := List.mem_map.mpr ⟨q, hq, rfl⟩
      rw [← hk2] at hq1
      obtain ⟨r, hr, hrq⟩ := List.mem_map.mp hq1
      have := hspec.2 r hr
      simp [← hrq, this]

theorem canonicalFields_iff_all {l : List (String × Json)} :
    canonicalFields l = true ↔ ∀ q ∈ l, canonical q.2 = true := by
  induction l with
  | nil => simp [canonicalFields.eq_def]
  | cons p ps ih =>
    obtain ⟨pk, pv⟩ := p
    rw [canonicalFields_cons]
    simp only [Bool.and_eq_true, ih, List.mem_cons]
    constructor
    · rintro ⟨h1, h2⟩ q (rfl | hq)
      · exact h1
      · exact h2 q hq
    · intro h
      exact ⟨h (pk, pv) (Or.inl rfl), fun q hq => h q (Or.inr hq)⟩

theorem canonicalArr_iff_all {l : List Json} :
    canonicalArr l = true ↔ ∀ q ∈ l, canonical q = true := by
  induction l with
  | nil => simp [canonicalArr.eq_def]
  | cons p ps ih =>
    rw [show canonicalArr (p :: ps) = (canonical p && canonicalArr ps) from by
      rw [canonicalArr.eq_def]]
    simp only [Bool.and_eq_true, ih, List.mem_cons]
    constructor
    · rintro ⟨h1, h2⟩ q (rfl | hq)
      · exact h1
      · exact h2 q hq
    · intro h
      exact ⟨h p (Or.inl rfl), fun q hq => h q (Or.inr hq)⟩

theorem nodupKeysFields_iff_all {l : List (String × Json)} :
    nodupKeysFields l = true ↔ ∀ q ∈ l, nodupKeysJson q.2 = true := by
  induction l with
  | nil => simp [nodupKeysFields.eq_def]
  | cons p ps ih =>
    obtain ⟨pk, pv⟩ := p
    rw [show nodupKeysFields ((pk, pv) :: ps) = (nodupKeysJson pv && nodupKeysFields ps) from by
      rw [nodupKeysFields.eq_def]]
    simp only [Bool.and_eq_true, ih, List.mem_cons]
    constructor
    · rintro ⟨h1, h2⟩ q (rfl | hq)
      · exact h1
      · exact h2 q hq
    · intro h
      exact ⟨h (pk, pv) (Or.inl rfl), fun q hq => h q (Or.inr hq)⟩

theorem nodupKeysArr_iff_all {l : List Json} :
    nodupKeysArr l = true ↔ ∀ q ∈ l, nodupKeysJson q = true := by
  induction l with
  | nil => simp [nodupKeysArr.eq_def]
  | cons p ps ih =>
    rw [show nodupKeysArr (p :: ps) = (nodupKeysJson p && nodupKeysArr ps) from by
      rw [nodupKeysArr.eq_def]]
    simp only [Bool.and_eq_true, ih, List.mem_cons]
    constructor
    · rintro ⟨h1, h2⟩ q (rfl | hq)
      · exact h1
      · exact h2 q hq
    · intro h
      exact ⟨h p (Or.inl rfl), fun q hq => h q (Or.inr hq)⟩

/-- Sorting a value whose objects all have distinct keys yields a canonical
value. -/
theorem canonical_sortJson : ∀ (n : Nat) (x : Json), sizeOf x ≤ n →
    nodupKeysJson x = true → canonical (sortJson x) = true := by
  intro n
  induction n with
  | zero =>
    intro x hx
    have : 0 < sizeOf x := by cases x <;> simp
    omega
  | succ m ih =>
    intro x hx hnd
    match x with
    | .null => rfl
    | .bool b => rfl
    | .num k => rfl
    | .str s => rfl
    | .arr xs =>
      rw [show sortJson (.arr xs) = .arr (sortArr xs) from by rw [sortJson.eq_def],
        show canonical (Json.arr (sortArr xs)) = canonicalArr (sortArr xs) from by
          rw [canonical.eq_def]]
      rw [canonicalArr_iff_all]
      intro q hq
      have hmem : ∃ y ∈ xs, q = sortJson y := by
        clear hx hnd
        induction xs with
        | nil => simp [show sortArr [] = [] from by rw [sortArr.eq_def]] at hq
        | cons z zs ihz =>
          rw [show sortArr (z :: zs) = sortJson z :: sortArr zs from by
            rw [sortArr.eq_def]] at hq
          rcases List.mem_cons.mp hq with rfl | hq
          · exact ⟨z, by simp⟩
          · obtain ⟨y, hy, rfl⟩ := ihz hq
            exact ⟨y, by simp [hy]⟩
      obtain ⟨y, hy, rfl⟩ := hmem
      have hsy : sizeOf y ≤ m := by
        have := List.sizeOf_lt_of_mem hy
        simp only [Json.arr.sizeOf_spec] at hx
        omega
      refine ih y hsy ?_
      have := (nodupKeysArr_iff_all).mp (by
        simpa [show nodupKeysJson (.arr xs) = nodupKeysArr xs from by
          rw [nodupKeysJson.eq_def]] using hnd)
      exact this y hy
    | .obj fs =>
      rw [show sortJson (.obj fs) = .obj (sortPairs (sortFields fs)) from by
        rw [sortJson.eq_def], canonical_obj]
      have hnd' : (keysDistinct fs && nodupKeysFields fs) = true := by
        simpa [show nodupKeysJson (.obj fs) = (keysDistinct fs && nodupKeysFields fs) from by
          rw [nodupKeysJson.eq_def]] using hnd
      simp only [Bool.and_eq_true]
      constructor
      · exact sortPairs_sorted
          (keysDistinct_of_keys_eq keys_sortFields.symm (by simp_all))
      · rw [canonicalFields_iff_all]
        intro q hq
        obtain ⟨p, hp, rfl⟩ := mem_sortFields.mp (mem_sortPairs.mp hq)
        have hsp : sizeOf p.2 ≤ m := by
          have h1 := List.sizeOf_lt_of_mem hp
          have h2 : sizeOf p.2 < sizeOf p := by
            obtain ⟨p1, p2⟩ := p
            simp
          simp only [Json.obj.sizeOf_spec] at hx
          omega
        refine ih p.2 hsp ?_
        exact (nodupKeysFields_iff_all.mp (by simp_all)) p hp

/-! ## The topology data model (pkg/topology/state)

Each structure mirrors the Go struct of the same name, field for field and in
declaration order.  Go `namespace` fields are called `ns` (keyword), `Type`
fields are called `typ`, and `Route.Match` is called `matchExpr`.  A `[]T` or
`map[string]T` field without `omitempty` distinguishes nil from empty, so it
is an `Option`; with `omitempty` both marshal to nothing, so a plain `List`
suffices.  Pointer-valued map entries (`map[string]*T`) carry `Option T`
values (a nil pointer marshals to `null`).  Fields of external Kubernetes or
Traefik types (`netv1.IngressTLS`, `netv1.IngressRule`, `netv1.IngressBackend`,
`traefikv1alpha1.Domain`, `traefikv1alpha1.ClientAuth`) are represented by the
`Json` image the external value marshals to.  Unexported Go fields
(`App.podLabels`, `Service.status`) never marshal and are omitted. -/

/-- `state.Overview`: JSON keys ingressCount, serviceCount,
ingressControllerTypes (no omitempty). -/
structure Overview where
  ingressCount : Int := 0
  serviceCount : Int := 0
  ingressControllerTypes : Option (List String) := none
deriving DecidableEq

/-- `state.ResourceMeta`: JSON keys kind, group, name, namespace. -/
structure ResourceMeta where
  kind : String := ""
  group : String := ""
  name : String := ""
  ns : String := ""
deriving DecidableEq

/-- `state.App`: name, kind, namespace, replicas, readyReplicas,
images(omitempty), labels(omitempty). -/
structure App where
  name : String := ""
  kind : String := ""
  ns : String := ""
  replicas : Int := 0
  readyReplicas : Int := 0
  images : List String := []
  labels : List (String × String) := []
deriving DecidableEq

/-- `state.IngressController`: embeds `App`, then type,
ingressClasses(omitempty), metricsURLs(omitempty), publicEndpoints(omitempty),
endpoints(omitempty). -/
structure IngressController where
  app : App := Hub.App.mk "" "" "" 0 0 [] []
  typ : String := ""
  ingressClasses : List String := []
  metricsURLs : List String := []
  publicEndpoints : List String := []
  endpoints : List String := []
deriving DecidableEq

/-- `state.Service`: name, namespace, clusterId, type, selector (no
omitempty), apps(omitempty), annotations(omitempty), externalIPs(omitempty),
externalPorts(omitempty). -/
structure Service where
  name : String := ""
  ns : String := ""
  clusterID : String := ""
  typ : String := ""
  selector : Option (List (String × String)) := none
  apps : List String := []
  annotations : List (String × String) := []
  externalIPs : List String := []
  externalPorts : List Int := []
deriving DecidableEq

/-- `state.IngressMeta`: clusterId, controllerType(omitempty),
annotations(omitempty). -/
structure IngressMeta where
  clusterID : String := ""
  controllerType : String := ""
  annotations : List (String × String) := []
deriving DecidableEq

/-- `state.Ingress`: embeds `ResourceMeta` and `IngressMeta`, then
ingressClassName(omitempty), tls(omitempty), rules(omitempty),
defaultBackend(omitempty), services(omitempty). -/
structure Ingress where
  meta : ResourceMeta := ResourceMeta.mk "" "" "" ""
  ingressMeta : IngressMeta := IngressMeta.mk "" "" []
  ingressClassName : Option String := none
  tls : List Json := []
  rules : List Json := []
  defaultBackend : Option Json := none
  services : List String := []
deriving DecidableEq

/-- `state.TLSOptionRef`: name, namespace(omitempty). -/
structure TLSOptionRef where
  name : String := ""
  ns : String := ""
deriving DecidableEq

/-- `state.IngressRouteTLS`: domains(omitempty), secretName(omitempty),
options(omitempty). -/
structure IngressRouteTLS where
  domains : List Json := []
  secretName : String := ""
  options : Option TLSOptionRef := none
deriving DecidableEq

/-- `state.RouteService`: namespace, name, portName(omitempty),
portNumber(omitempty). -/
structure RouteService where
  ns : String := ""
  name : String := ""
  portName : String := ""
  portNumber : Int := 0
deriving DecidableEq

/-- `state.Route`: match, services(omitempty). -/
structure Route where
  matchExpr : String := ""
  services : List RouteService := []
deriving DecidableEq

/-- `state.IngressRoute`: embeds `ResourceMeta` and `IngressMeta`, then
tls(omitempty), routes(omitempty), services(omitempty). -/
structure IngressRoute where
  meta : ResourceMeta := ResourceMeta.mk "" "" "" ""
  ingressMeta : IngressMeta := IngressMeta.mk "" "" []
  tls : Option IngressRouteTLS := none
  routes : List Route := []
  services : List String := []
deriving DecidableEq

/-- `state.AccessControlPolicyJWT`. -/
structure AccessControlPolicyJWT where
  signingSecret : String := ""
  signingSecretBase64Encoded : Bool := false
  publicKey : String := ""
  jwksFile : String := ""
  jwksURL : String := ""
  stripAuthorizationHeader : Bool := false
  forwardHeaders : List (String × String) := []
  tokenQueryKey : String := ""
  claims : String := ""
deriving DecidableEq

/-- `state.AccessControlPolicyBasicAuth`. -/
structure AccessControlPolicyBasicAuth where
  users : String := ""
  realm : String := ""
  stripAuthorizationHeader : Bool := false
  forwardUsernameHeader : String := ""
deriving DecidableEq

/-- `state.AccessControlPolicy`: name, namespace, clusterId, method (all
plain), jwt(omitempty), basicAuth(omitempty). -/
structure AccessControlPolicy where
  name : String := ""
  ns : String := ""
  clusterID : String := ""
  method : String := ""
  jwt : Option AccessControlPolicyJWT := none
  basicAuth : Option AccessControlPolicyBasicAuth := none
deriving DecidableEq

/-- `state.TLSOptions`: name, namespace, minVersion(omitempty),
maxVersion(omitempty), cipherSuites(omitempty), curvePreferences(omitempty),
clientAuth (plain, external Traefik type), sniStrict (plain),
preferServerCipherSuites (plain). -/
structure TLSOptions where
  name : String := ""
  ns : String := ""
  minVersion : String := ""
  maxVersion : String := ""
  cipherSuites : List String := []
  curvePreferences : List String := []
  clientAuth : Json := Json.obj []
  sniStrict : Bool := false
  preferServerCipherSuites : Bool := false
deriving DecidableEq

/-- `state.Cluster`: none of its fields carries a json tag, so every field
marshals under its Go name (`ID`, `Overview`, `Namespaces`, …) and nothing is
omitted when empty; the `dir:"Ingresses"` and `dir:"-"` tags on
`IngressRoutes` and `TraefikServiceNames` are not json tags. -/
structure Cluster where
  id : String := ""
  overview : Overview := Overview.mk 0 0 none
  namespaces : Option (List String) := none
  apps : Option (List (String × Option App)) := none
  ingresses : Option (List (String × Option Ingress)) := none
  ingressRoutes : Option (List (String × Option IngressRoute)) := none
  services : Option (List (String × Option Service)) := none
  ingressControllers : Option (List (String × Option IngressController)) := none
  accessControlPolicies : Option (List (String × Option AccessControlPolicy)) := none
  tlsOptions : Option (List (String × Option TLSOptions)) := none
  traefikServiceNames : Option (List (String × String)) := none
deriving DecidableEq

/-! ### Marshalling to JSON, field for field as Go `encoding/json` does -/

/-- A `[]string` value (nil marshals to `null` where used un-omitted). -/
def jsonOfStrings (xs : List String) : Json :=
  .arr (xs.map Json.str)

/-- A `map[string]string` value: keys in sorted order. -/
def jsonOfStringMap (m : List (String × String)) : Json :=
  .obj (sortPairs (m.map (fun p => (p.1, Json.str p.2))))

/-- A `map[string]*T` value: keys sorted, nil pointers as `null`. -/
def jsonOfPtrMap (f : α → Json) (m : List (String × Option α)) : Json :=
  .obj (sortPairs (m.map (fun p =>
    (p.1, match p.2 with
          | none => Json.null
          | some v => f v))))

/-- An `omitempty` string field. -/
def strField (k s : String) : List (String × Json) :=
  if s = "" then [] else [(k, .str s)]

/-- An `omitempty` integer field. -/
def intField (k : String) (n : Int) : List (String × Json) :=
  if n = 0 then [] else [(k, .num n)]

/-- An `omitempty` boolean field. -/
def boolField (k : String) (b : Bool) : List (String × Json) :=
  if b then [(k, .bool true)] else []

/-- An `omitempty` slice field. -/
def listField (k : String) (f : α → Json) (xs : List α) : List (String × Json) :=
  if xs.isEmpty then [] else [(k, .arr (xs.map f))]

/-- An `omitempty` `map[string]string` field. -/
def strMapField (k : String) (m : List (String × String)) : List (String × Json) :=
  if m.isEmpty then [] else [(k, jsonOfStringMap m)]

/-- An `omitempty` pointer field. -/
def optField (k : String) (f : α → Json) : Option α → List (String × Json)
  | none => []
  | some x => [(k, f x)]

/-- A non-omitempty nilable field (nil marshals to `null`). -/
def nullableField (k : String) (f : α → Json) : Option α → String × Json
  | none => (k, Json.null)
  | some x => (k, f x)

def Overview.toJson (o : Overview) : Json :=
  .obj [("ingressCount", .num o.ingressCount),
        ("serviceCount", .num o.serviceCount),
        nullableField "ingressControllerTypes" jsonOfStrings o.ingressControllerTypes]

def ResourceMeta.fields (m : ResourceMeta) : List (String × Json) :=
  [("kind", .str m.kind), ("group", .str m.group),
   ("name", .str m.name), ("namespace", .str m.ns)]

def IngressMeta.fields (m : IngressMeta) : List (String × Json) :=
  [("clusterId", .str m.clusterID)]
    ++ strField "controllerType" m.controllerType
    ++ strMapField "annotations" m.annotations

def App.fields (a : App) : List (String × Json) :=
  [("name", .str a.name), ("kind", .str a.kind), ("namespace", .str a.ns),
   ("replicas", .num a.replicas), ("readyReplicas", .num a.readyReplicas)]
    ++ listField "images" Json.str a.images
    ++ strMapField "labels" a.labels

def App.toJson (a : App) : Json :=
  .obj a.fields

def IngressController.toJson (c : IngressController) : Json :=
  .obj (c.app.fields
    ++ [("type", .str c.typ)]
    ++ listField "ingressClasses" Json.str c.ingressClasses
    ++ listField "metricsURLs" Json.str c.metricsURLs
    ++ listField "publicEndpoints" Json.str c.publicEndpoints
    ++ listField "endpoints" Json.str c.endpoints)

def Service.toJson (s : Service) : Json :=
  .obj ([("name", .str s.name), ("namespace", .str s.ns),
         ("clusterId", .str s.clusterID), ("type", .str s.typ),
         nullableField "selector" jsonOfStringMap s.selector]
    ++ listField "apps" Json.str s.apps
    ++ strMapField "annotations" s.annotations
    ++ listField "externalIPs" Json.str s.externalIPs
    ++ listField "externalPorts" Json.num s.externalPorts)

def Ingress.toJson (i : Ingress) : Json :=
  .obj (i.meta.fields
    ++ i.ingressMeta.fields
    ++ optField "ingressClassName" Json.str i.ingressClassName
    ++ listField "tls" id i.tls
    ++ listField "rules" id i.rules
    ++ optField "defaultBackend" id i.defaultBackend
    ++ listField "services" Json.str i.services)

def TLSOptionRef.toJson (r : TLSOptionRef) : Json :=
  .obj ([("name", .str r.name)] ++ strField "namespace" r.ns)

def IngressRouteTLS.toJson (t : IngressRouteTLS) : Json :=
  .obj (listField "domains" id t.domains
    ++ strField "secretName" t.secretName
    ++ optField "options" TLSOptionRef.toJson t.options)

def RouteService.toJson (s : RouteService) : Json :=
  .obj ([("namespace", .str s.ns), ("name", .str s.name)]
    ++ strField "portName" s.portName
    ++ intField "portNumber" s.portNumber)

def Route.toJson (r : Route) : Json :=
  .obj ([("match", .str r.matchExpr)]
    ++ listField "services" RouteService.toJson r.services)

def IngressRoute.toJson (i : IngressRoute) : Json :=
  .obj (i.meta.fields
    ++ i.ingressMeta.fields
    ++ optField "tls" IngressRouteTLS.toJson i.tls
    ++ listField "routes" Route.toJson i.routes
    ++ listField "services" Json.str i.services)

def AccessControlPolicyJWT.toJson (j : AccessControlPolicyJWT) : Json :=
  .obj (strField "signingSecret" j.signingSecret
    ++ [("signingSecretBase64Encoded", .bool j.signingSecretBase64Encoded)]
    ++ strField "publicKey" j.publicKey
    ++ strField "jwksFile" j.jwksFile
    ++ strField "jwksUrl" j.jwksURL
    ++ boolField "stripAuthorizationHeader" j.stripAuthorizationHeader
    ++ strMapField "forwardHeaders" j.forwardHeaders
    ++ strField "tokenQueryKey" j.tokenQueryKey
    ++ strField "claims" j.claims)

def AccessControlPolicyBasicAuth.toJson (b : AccessControlPolicyBasicAuth) : Json :=
  .obj (strField "users" b.users
    ++ strField "realm" b.realm
    ++ boolField "stripAuthorizationHeader" b.stripAuthorizationHeader
    ++ strField "forwardUsernameHeader" b.forwardUsernameHeader)

def AccessControlPolicy.toJson (p : AccessControlPolicy) : Json :=
  .obj ([("name", .str p.name), ("namespace", .str p.ns),
         ("clusterId", .str p.clusterID), ("method", .str p.method)]
    ++ optField "jwt" AccessControlPolicyJWT.toJson p.jwt
    ++ optField "basicAuth" AccessControlPolicyBasicAuth.toJson p.basicAuth)

def TLSOptions.toJson (o : TLSOptions) : Json :=
  .obj ([("name", .str o.name), ("namespace", .str o.ns)]
    ++ strField "minVersion" o.minVersion
    ++ strField "maxVersion" o.maxVersion
    ++ listField "cipherSuites" Json.str o.cipherSuites
    ++ listField "curvePreferences" Json.str o.curvePreferences
    ++ [("clientAuth", o.clientAuth),
        ("sniStrict", .bool o.sniStrict),
        ("preferServerCipherSuites", .bool o.preferServerCipherSuites)])

/-- `json.Marshal(state.Cluster)` as a JSON tree: untagged Go fields marshal
under their Go names, in declaration order, nothing omitted. -/
def Cluster.toJson (c : Cluster) : Json :=
  .obj [("ID", .str c.id),
        ("Overview", c.overview.toJson),
        nullableField "Namespaces" jsonOfStrings c.namespaces,
        nullableField "Apps" (jsonOfPtrMap App.toJson) c.apps,
        nullableField "Ingresses" (jsonOfPtrMap Ingress.toJson) c.ingresses,
        nullableField "IngressRoutes" (jsonOfPtrMap IngressRoute.toJson) c.ingressRoutes,
        nullableField "Services" (jsonOfPtrMap Service.toJson) c.services,
        nullableField "IngressControllers" (jsonOfPtrMap IngressController.toJson)
          c.ingressControllers,
        nullableField "AccessControlPolicies" (jsonOfPtrMap AccessControlPolicy.toJson)
          c.accessControlPolicies,
        nullableField "TLSOptions" (jsonOfPtrMap TLSOptions.toJson) c.tlsOptions,
        nullableField "TraefikServiceNames" jsonOfStringMap c.traefikServiceNames]

/-- The bytes `json.Marshal` produces for a `state.Cluster`. -/
def marshalCluster (c : Cluster) : String :=
  encodeJson c.toJson

/-! ## The sync engine (pkg/topology/store/store.go) -/

/-- `Store.buildPatch`: marshal the new snapshot; if the bytes equal the
cached ones there is no patch (`bytes.Equal` check); otherwise the patch is
`jsonpatch.CreateMergePatch(lastTopology, newTopology)`.  The cached document
is carried as the JSON tree whose encoding is the cached byte slice
(`lastTopology` is only ever assigned a `json.Marshal` result, so the two
views are interchangeable); marshalling itself cannot fail for this data
model, so the error return of the Go function is absent. -/
def buildPatch (lastTopology : Json) (st : Cluster) : Option String × String :=
  let newJson := st.toJson
  let newBytes := encodeJson newJson
  if newBytes = encodeJson lastTopology then (none, newBytes)
  else (some (encodeJson (createMergePatch lastTopology newJson)), newBytes)

/-- An error returned by the platform client.  `api` is `platform.APIError`
with its `Retryable` classification (the store inspects it through
`errors.As`); `other` is any other Go error (for which `errors.As` fails). -/
inductive PlatformError where
  | api (statusCode : Nat) (retryable : Bool) (message : String)
  | other (message : String)
deriving DecidableEq

/-- `Error()` text: `APIError.Error` formats
"failed with code %d: %s"; other errors render their own message. -/
def errMessage : PlatformError → String
  | .api code _ msg => "failed with code " ++ toString code ++ ": " ++ msg
  | .other msg => msg

/-- The retry test of `Store.Write`
(`errors.As(err, &apiErr) && apiErr.Retryable`). -/
def isRetryableErr : PlatformError → Bool
  | .api _ r _ => r
  | .other _ => false

/-- The two cached fields of `Store` (the backoff policy lives in the loop
fuel).  `lastTopology` is the cached `json.Marshal` result, carried as the
tree it encodes; `none` is the nil byte slice of a fresh store. -/
structure StoreState where
  lastTopology : Option Json := none
  lastKnownVersion : String := ""
deriving DecidableEq

/-- Responses the platform gives to successive calls: the n-th FetchTopology
call returns `fetch n`, the n-th PatchTopology call returns `patch n` (a
version and an optional error — the Go signature `(string, error)` allows
both to be set, the real client returns `""` with every error). -/
structure Env where
  fetch : Nat → Except PlatformError (Cluster × String)
  patch : Nat → String × Option PlatformError

instance {ε α : Type} [DecidableEq ε] [DecidableEq α] : DecidableEq (Except ε α) :=
  fun a b =>
    match a, b with
    | .error e1, .error e2 => decidable_of_iff (e1 = e2) (by rw [Except.error.injEq])
    | .ok a1, .ok a2 => decidable_of_iff (a1 = a2) (by rw [Except.ok.injEq])
    | .error _, .ok _ => isFalse (fun h => Except.noConfusion h)
    | .ok _, .error _ => isFalse (fun h => Except.noConfusion h)

/-- Observable client interactions of one `Write` call, in order.  A patch
event records the `Last-Known-Version` it was submitted with, the patch body,
and the client's response. -/
inductive Event where
  | fetch (result : Except PlatformError (Cluster × String))
  | patch (lastKnownVersion : String) (body : String) (result : String × Option PlatformError)
deriving DecidableEq

/-- Number of fetch events in a trace. -/
def countFetch : List Event → Nat
  | [] => 0
  | .fetch _ :: tr => countFetch tr + 1
  | .patch _ _ _ :: tr => countFetch tr

/-- Number of patch events in a trace. -/
def countPatch : List Event → Nat
  | [] => 0
  | .fetch _ :: tr => countPatch tr
  | .patch _ _ _ :: tr => countPatch tr + 1

/-- Outcome of one execution of the closure passed to `backoff.RetryNotify`:
`nil` (success), a `backoff.Permanent`-wrapped error (no retry), or a plain
error (retry after backoff). -/
inductive IterOutcome where
  | success
  | permanent (msg : String)
  | retryable (e : PlatformError)
deriving DecidableEq

/-- The patch half of the `Store.Write` closure: build the patch from the
cached bytes, skip submission when there is none, otherwise submit and let
the multiple-assignment `s.lastKnownVersion, err = s.platform.PatchTopology(…)`
store the returned version before the error is even inspected.  On success
the cached topology becomes the just-marshalled snapshot.  With a nil cached
byte slice `jsonpatch.CreateMergePatch` fails to unmarshal its first argument
and the closure returns the permanent "build topology patch" error (the
`bytes.Equal` guard cannot fire first because a marshalled document is never
empty). -/
def patchPhase (env : Env) (np : Nat) (s : StoreState) (st : Cluster) (tr : List Event) :
    StoreState × List Event × IterOutcome :=
  match s.lastTopology with
  | none => (s, tr, .permanent "build topology patch: unexpected end of JSON input")
  | some lt =>
    match buildPatch lt st with
    | (none, _) => (s, tr, .success)
    | (some patchBytes, _) =>
      let r := env.patch np
      match r.2 with
      | none =>
        ({ lastTopology := some st.toJson, lastKnownVersion := r.1 },
         tr ++ [.patch s.lastKnownVersion patchBytes r], .success)
      | some e =>
        if isRetryableErr e then
          ({ s with lastKnownVersion := r.1 },
           tr ++ [.patch s.lastKnownVersion patchBytes r], .retryable e)
        else
          ({ s with lastKnownVersion := r.1 },
           tr ++ [.patch s.lastKnownVersion patchBytes r],
           .permanent ("patch topology: " ++ errMessage e))

/-- One execution of the `Store.Write` closure: fetch first when no version
is cached (a fetch failure is permanent and mutates nothing; a fetched
topology is marshalled into the cache together with its version), then the
patch phase. -/
def writeOnce (env : Env) (nf np : Nat) (s : StoreState) (st : Cluster) :
    StoreState × List Event × IterOutcome :=
  if s.lastKnownVersion = "" then
    match env.fetch nf with
    | .error e =>
      (s, [.fetch (.error e)], .permanent ("fetch topology: " ++ errMessage e))
    | .ok (topo, version) =>
      patchPhase env np { lastTopology := some topo.toJson, lastKnownVersion := version } st
        [.fetch (.ok (topo, version))]
  else
    patchPhase env np s st []

/-- The `backoff.RetryNotify` loop around the closure.  `fuel` is the number
of backoff sleeps the policy still allows: `backoff.ExponentialBackOff` stops
retrying once its elapsed time exceeds `MaxElapsedTime` (one minute here), so
a run of `Write` retries some finite, timing-dependent number of times —
statements quantify over `fuel`.  When the budget is exhausted the last
(plain, retryable) error is returned to the caller. -/
def writeLoop (env : Env) (fuel nf np : Nat) (s : StoreState) (st : Cluster) :
    StoreState × List Event × Except String Unit :=
  match writeOnce env nf np s st with
  | (s', tr, .success) => (s', tr, .ok ())
  | (s', tr, .permanent msg) => (s', tr, .error msg)
  | (s', tr, .retryable e) =>
    match fuel with
    | 0 => (s', tr, .error (errMessage e))
    | fuel' + 1 =>
      match writeLoop env fuel' (nf + countFetch tr) (np + countPatch tr) s' st with
      | (s'', tr', res) => (s'', tr ++ tr', res)

/-- `Store.Write` on a fresh call: the response counters start at zero. -/
def write (env : Env) (fuel : Nat) (s : StoreState) (st : Cluster) :
    StoreState × List Event × Except String Unit :=
  writeLoop env fuel 0 0 s st

/-- What must follow a retryably-failed patch inside one `Write`: either the
call ends, or exactly one fetch happens before anything else — and if that
fetch succeeds with version `w`, the next patch attempt (if any) is submitted
against `w`; if it fails, the call ends at once.  A patch before a fetch, or
a second fetch before the next patch, violates the discipline. -/
def nextBlockOk : List Event → Bool
  | [] => true
  | .patch _ _ _ :: _ => false
  | .fetch (.error _) :: rest => rest.isEmpty
  | .fetch (.ok (_, w)) :: rest =>
    match rest with
    | [] => true
    | .patch w' _ _ :: _ => w' == w
    | .fetch _ :: _ => false

/-- Every retryably-failed patch event in the trace is followed by a
well-formed re-fetch block. -/
def goodAfterRetry : List Event → Bool
  | [] => true
  | .fetch _ :: rest => goodAfterRetry rest
  | .patch _ _ (_, none) :: rest => goodAfterRetry rest
  | .patch _ _ (_, some e) :: rest =>
    (if isRetryableErr e then nextBlockOk rest else true) && goodAfterRetry rest

/-- Modelled from the spec: the classification the string-version platform
client performs in `PatchTopology` is absent from the `src` copy of
pkg/platform/client.go (that file is an older revision with `int64` versions
and no `Retryable` field, although store.go and store_test.go both read
`platform.APIError.Retryable`).  Per spec §4.3: HTTP 200 is success; HTTP 400
and 422 produce a fatal `APIError`; every other status produces a retryable
one, with the decoded `\x7b "error": … \x7d` body as message. -/
def classifyPatchResponse (statusCode : Nat) (message : String) : Option PlatformError :=
  if statusCode = 200 then none
  else some (.api statusCode (decide ¬(statusCode = 400 ∨ statusCode = 422)) message)

/-- The retry decision of hashicorp/go-retryablehttp's `DefaultRetryPolicy`,
which `NewClient` leaves in place: retry on transport errors (status 0 here),
HTTP 429, and every 5xx except 501 — for any method. -/
def shouldRetryStatus (status : Nat) : Bool :=
  status = 0 || status = 429 || (500 ≤ status && status ≠ 501)

/-- Number of HTTP attempts a single `httpClient.Do` makes when the i-th
attempt is answered with status `responses i`: one initial attempt plus up to
`budget` retries (`client.RetryMax = 4` in `NewClient`).  Every Client method,
`PatchTopology` included, goes through this transport. -/
def attemptsFrom (budget : Nat) (responses : Nat → Nat) (i : Nat) : Nat :=
  if shouldRetryStatus (responses i) then
    match budget with
    | 0 => 1
    | b + 1 => 1 + attemptsFrom b responses (i + 1)
  else 1

/-- HTTP attempts of one `Client.PatchTopology` call under the `RetryMax = 4`
retryablehttp transport built by `NewClient`. -/
def patchHTTPAttempts (responses : Nat → Nat) : Nat :=
  attemptsFrom 4 responses 0

/-! ## Unfolding lemmas for the engine's individual steps -/

theorem patchPhase_nil_topology (env : Env) (np : Nat) (s : StoreState) (st : Cluster)
    (tr : List Event) (h : s.lastTopology = none) :
    patchPhase env np s st tr
      = (s, tr, .permanent "build topology patch: unexpected end of JSON input") := by
  simp [patchPhase, h]

theorem patchPhase_no_change (env : Env) (np : Nat) (s : StoreState) (st : Cluster)
    (tr : List Event) (lt : Json) (h : s.lastTopology = some lt)
    (hb : (buildPatch lt st).1 = none) :
    patchPhase env np s st tr = (s, tr, .success) := by
  obtain ⟨p1, p2, hp⟩ : ∃ p1 p2, buildPatch lt st = (p1, p2) := ⟨_, _, rfl⟩
  simp [patchPhase, h, hp, show p1 = none from by simpa [hp] using hb]

theorem patchPhase_submit_ok (env : Env) (np : Nat) (s : StoreState) (st : Cluster)
    (tr : List Event) (lt : Json) (pb : String) (v : String)
    (h : s.lastTopology = some lt) (hb : (buildPatch lt st).1 = some pb)
    (hr : env.patch np = (v, none)) :
    patchPhase env np s st tr
      = ({ lastTopology := some st.toJson, lastKnownVersion := v },
         tr ++ [.patch s.lastKnownVersion pb (v, none)], .success) := by
  obtain ⟨p1, p2, hp⟩ : ∃ p1 p2, buildPatch lt st = (p1, p2) := ⟨_, _, rfl⟩
  simp [patchPhase, h, hp, show p1 = some pb from by simpa [hp] using hb, hr]

theorem patchPhase_submit_err (env : Env) (np : Nat) (s : StoreState) (st : Cluster)
    (tr : List Event) (lt : Json) (pb : String) (v : String) (e : PlatformError)
    (h : s.lastTopology = some lt) (hb : (buildPatch lt st).1 = some pb)
    (hr : env.patch np = (v, some e)) :
    patchPhase env np s st tr
      = ({ s with lastKnownVersion := v },
         tr ++ [.patch s.lastKnownVersion pb (v, some e)],
         if isRetryableErr e then .retryable e
         else .permanent ("patch topology: " ++ errMessage e)) := by
  obtain ⟨p1, p2, hp⟩ : ∃ p1 p2, buildPatch lt st = (p1, p2) := ⟨_, _, rfl⟩
  by_cases hre : isRetryableErr e <;>
    simp [patchPhase, h, hp, show p1 = some pb from by simpa [hp] using hb, hr, hre]

theorem writeOnce_fetch_err (env : Env) (nf np : Nat) (s : StoreState) (st : Cluster)
    (e : PlatformError) (hv : s.lastKnownVersion = "") (hf : env.fetch nf = .error e) :
    writeOnce env nf np s st
      = (s, [.fetch (.error e)], .permanent ("fetch topology: " ++ errMessage e)) := by
  simp [writeOnce, hv, hf]

theorem writeOnce_fetch_ok (env : Env) (nf np : Nat) (s : StoreState) (st : Cluster)
    (c : Cluster) (w : String) (hv : s.lastKnownVersion = "") (hf : env.fetch nf = .ok (c, w)) :
    writeOnce env nf np s st
      = patchPhase env np { lastTopology := some c.toJson, lastKnownVersion := w } st
          [.fetch (.ok (c, w))] := by
  simp [writeOnce, hv, hf]

theorem writeOnce_no_fetch (env : Env) (nf np : Nat) (s : StoreState) (st : Cluster)
    (hv : s.lastKnownVersion ≠ "") :
    writeOnce env nf np s st = patchPhase env np s st [] := by
  simp [writeOnce, hv]

theorem writeLoop_success (env : Env) (fuel nf np : Nat) (s s' : StoreState) (st : Cluster)
    (tr : List Event) (h : writeOnce env nf np s st = (s', tr, .success)) :
    writeLoop env fuel nf np s st = (s', tr, .ok ()) := by
  rw [writeLoop.eq_def, h]

theorem writeLoop_permanent (env : Env) (fuel nf np : Nat) (s s' : StoreState) (st : Cluster)
    (tr : List Event) (msg : String)
    (h : writeOnce env nf np s st = (s', tr, .permanent msg)) :
    writeLoop env fuel nf np s st = (s', tr, .error msg) := by
  rw [writeLoop.eq_def, h]

theorem writeLoop_retry_zero (env : Env) (nf np : Nat) (s s' : StoreState) (st : Cluster)
    (tr : List Event) (e : PlatformError)
    (h : writeOnce env nf np s st = (s', tr, .retryable e)) :
    writeLoop env 0 nf np s st = (s', tr, .error (errMessage e)) := by
  rw [writeLoop.eq_def, h]

theorem writeLoop_retry_succ (env : Env) (fuel nf np : Nat) (s s' : StoreState) (st : Cluster)
    (tr : List Event) (e : PlatformError)
    (h : writeOnce env nf np s st = (s', tr, .retryable e)) :
    writeLoop env (fuel + 1) nf np s st
      = ((writeLoop env fuel (nf + countFetch tr) (np + countPatch tr) s' st).1,
         tr ++ (writeLoop env fuel (nf + countFetch tr) (np + countPatch tr) s' st).2.1,
         (writeLoop env fuel (nf + countFetch tr) (np + countPatch tr) s' st).2.2) := by
  rw [writeLoop.eq_def, h]

/-! ## Claim C4 -/

/-- C4 (confirmed).  First part: for every snapshot `S`, building a patch
against `S`'s own marshalling yields no patch (`bytes.Equal` sees identical
bytes, so `buildPatch` returns a nil patch).  Second part: a `Write` against
a cache holding a version token and a byte-equal topology returns success
immediately, with an empty interaction trace — zero FetchTopology and zero
PatchTopology calls — and the cached state untouched (the situation after a
successful `Write` whose returned version was non-empty, re-invoked with a
snapshot whose canonical encoding is byte-equal to the cached
`lastTopology`). -/
theorem claim4_idempotent_write :
    (∀ S : Cluster, (buildPatch S.toJson S).1 = none)
    ∧ (∀ (env : Env) (fuel : Nat) (s : StoreState) (snap : Cluster) (t : Json),
        s.lastKnownVersion ≠ "" → s.lastTopology = some t →
        encodeJson snap.toJson = encodeJson t →
        write env fuel s snap = (s, [], .ok ())) := by
  constructor
  · intro S
    simp [buildPatch]
  · intro env fuel s snap t hv ht he
    have h1 : writeOnce env 0 0 s snap = (s, [], .success) := by
      rw [writeOnce_no_fetch env 0 0 s snap hv,
        patchPhase_no_change env 0 s snap [] t ht (by simp [buildPatch, he])]
    rw [write, writeLoop_success env fuel 0 0 s s snap [] h1]

/-- Concrete instantiation of C4's second part: a store caching version
"version-1" and the marshalling of a one-service topology, asked to write a
byte-identical snapshot, answers success with zero client calls. -/
theorem claim4_witness :
    write
      { fetch := fun _ => .ok (Cluster.mk "" (Overview.mk 0 0 none) none none none none
          none none none none none, "version-9")
        patch := fun _ => ("version-9", none) }
      3
      { lastTopology := some (Cluster.mk "" (Overview.mk 0 1 none) none none none none
          none none none none none).toJson
        lastKnownVersion := "version-1" }
      (Cluster.mk "" (Overview.mk 0 1 none) none none none none none none none none none)
      = ({ lastTopology := some (Cluster.mk "" (Overview.mk 0 1 none) none none none none
            none none none none none).toJson
           lastKnownVersion := "version-1" }, [], .ok ()) :=
  claim4_idempotent_write.2
    { fetch := fun _ => .ok (Cluster.mk "" (Overview.mk 0 0 none) none none none none
        none none none none none, "version-9")
      patch := fun _ => ("version-9", none) }
    3 _ _
    (Cluster.mk "" (Overview.mk 0 1 none) none none none none none none none none none).toJson
    (by decide) rfl rfl

/-! ## Claim C9 -/

/-- S1's fetched baseline: `state.Cluster\x7bOverview: Overview\x7bServiceCount: 0\x7d\x7d`. -/
def prevS1 : Cluster :=
  { overview := { serviceCount := 0 } }

/-- S1's new snapshot: service `service-1@ns` (ClusterIP, one external IP and
port, one annotation) plus the unrelated `ingress-1@ns`. -/
def nextS1 : Cluster :=
  { overview := { serviceCount := 1 }
    services := some [("service-1@ns",
      some { name := "service-1", ns := "ns", typ := "ClusterIP"
             annotations := [("key", "value")]
             externalIPs := ["10.10.10.10"]
             externalPorts := [8080] })]
    ingresses := some [("ingress-1@ns",
      some { meta := { name := "ingress-1", ns := "ns" } })] }

/-- The patch body the code actually submits for S1. -/
def actualS1PatchBody : String :=
  "\x7b\"Ingresses\":\x7b\"ingress-1@ns\":\x7b\"clusterId\":\"\",\"group\":\"\",\"kind\":\"\",\"name\":\"ingress-1\",\"namespace\":\"ns\"\x7d\x7d,\"Overview\":\x7b\"serviceCount\":1\x7d,\"Services\":\x7b\"service-1@ns\":\x7b\"annotations\":\x7b\"key\":\"value\"\x7d,\"clusterId\":\"\",\"externalIPs\":[\"10.10.10.10\"],\"externalPorts\":[8080],\"name\":\"service-1\",\"namespace\":\"ns\",\"selector\":null,\"type\":\"ClusterIP\"\x7d\x7d\x7d"

/-- The patch body the spec (and `TestStore_Write_fetchAndPatch`, case
"add one service") expects for the overview/services part: lower-case keys,
no `clusterId`, no `selector`. -/
def claimedS1PatchBody : String :=
  "\x7b\"overview\":\x7b\"serviceCount\":1\x7d,\"services\":\x7b\"service-1@ns\":\x7b\"annotations\":\x7b\"key\":\"value\"\x7d,\"externalIPs\":[\"10.10.10.10\"],\"externalPorts\":[8080],\"name\":\"service-1\",\"namespace\":\"ns\",\"type\":\"ClusterIP\"\x7d\x7d\x7d"

set_option maxRecDepth 4000 in
/-- C9 (code_bug).  Evaluating `Store.buildPatch` at scenario S1 against the
`state` model of src/unnamed/part_000: the submitted body uses the Go field
names `Ingresses`/`Overview`/`Services` (the `Cluster` struct has no json
tags), and the service entry carries `clusterId:""` and `selector:null`
(those fields lack `omitempty`), contradicting the spec's expected body and
the repository's own store_test.go, which demand lower-case keys with those
fields omitted. -/
theorem claim9_actual_patch_body :
    (buildPatch prevS1.toJson nextS1).1 = some actualS1PatchBody
      ∧ actualS1PatchBody ≠ claimedS1PatchBody := by
  constructor
  · rfl
  · decide

/-! ## Claim C6 -/

/-- The topology the platform keeps returning in the retry-budget scenario
(as in `TestStore_Write_giveUpOnRetryingIfMaxRetryReached`). -/
def clusterOne : Cluster :=
  { overview := { serviceCount := 1 } }

/-- The snapshot whose patch keeps being rejected. -/
def clusterFortyTwo : Cluster :=
  { overview := { serviceCount := 42 } }

/-- A platform whose every patch answer is a retryable 409 returning the
empty version. -/
def envC6 : Env :=
  { fetch := fun _ => .ok (clusterOne, "version-1")
    patch := fun _ => ("", some (.api 409 true "conflict")) }

set_option maxRecDepth 8000 in
/-- C6 (code_bug).  `Store.Write` has no `maxPatchRetry` budget: `New`
installs only an exponential backoff whose `MaxElapsedTime` (one minute)
bounds retries by elapsed time.  With a backoff allowing five sleeps, a cold
`Write` against a platform that answers every patch with a retryable error
performs six PatchTopology attempts (and six fetches) before giving up —
not the three the spec's `maxPatchRetry` (set to 3 by the repository's own
`TestStore_Write_giveUpOnRetryingIfMaxRetryReached`, a field `store.go` does
not even declare) would allow. -/
theorem claim6_retry_bound_is_elapsed_time_not_count :
    countPatch (write envC6 5 {} clusterFortyTwo).2.1 = 6
      ∧ countFetch (write envC6 5 {} clusterFortyTwo).2.1 = 6
      ∧ (write envC6 5 {} clusterFortyTwo).2.2
          = .error "failed with code 409: conflict" := by
  refine ⟨?_, ?_, ?_⟩ <;> rfl

/-! ## Claim C7 -/

/-- C7 (confirmed, modelled from the spec).  Every non-200 response to
PatchTopology yields a structured `APIError` carrying the status code and a
retryable flag; the flag is false exactly for 400 and 422 and true for every
other non-200 status (409 and 5xx included), and the store's retry decision
(`errors.As` + `Retryable`, modelled by `isRetryableErr`) reads exactly that
flag, treating non-`APIError` errors as fatal. -/
theorem claim7_error_classification :
    (∀ (code : Nat) (msg : String), code ≠ 200 →
      ∃ r, classifyPatchResponse code msg = some (.api code r msg)
        ∧ (r = false ↔ (code = 400 ∨ code = 422)))
    ∧ (∀ (code : Nat) (msg : String), classifyPatchResponse code msg = none ↔ code = 200)
    ∧ (∀ (code : Nat) (msg : String) (r : Bool), isRetryableErr (.api code r msg) = r)
    ∧ (∀ msg : String, isRetryableErr (.other msg) = false) := by
  refine ⟨?_, ?_, ?_, ?_⟩
  · intro code msg hc
    refine ⟨decide ¬(code = 400 ∨ code = 422), ?_, ?_⟩
    · simp [classifyPatchResponse, hc]
    · rw [decide_eq_false_iff_not, not_not]
  · intro code msg
    constructor
    · intro h
      by_contra hc
      simp [classifyPatchResponse, hc] at h
    · intro h
      simp [classifyPatchResponse, h]
  · intro code msg r
    rfl
  · intro msg
    rfl

/-- Concrete instantiation of C7's classification at HTTP 409: the error is
an `APIError` with the code, and its flag is not false (409 is retryable). -/
theorem claim7_witness :
    ∃ r, classifyPatchResponse 409 "conflict" = some (.api 409 r "conflict")
      ∧ (r = false ↔ (409 = 400 ∨ 409 = 422)) :=
  claim7_error_classification.1 409 "conflict" (by decide)

/-! ## Claim C8 -/

/-- C8 (code_bug).  `Client.PatchTopology` sends through the shared
retryablehttp transport (`NewClient` sets `RetryMax = 4` and the default
retry policy, which retries 5xx and transport failures for any method), so a
PATCH answered with 502 every time is attempted five times at the HTTP layer
— not once, as the spec and the code's own comment ("This operation cannot
be retried without calling FetchTopology in between") require.  A 200
response is attempted once. -/
theorem claim8_patch_is_retried_at_http_layer :
    patchHTTPAttempts (fun _ => 502) = 5
      ∧ patchHTTPAttempts (fun _ => 200) = 1
      ∧ shouldRetryStatus 502 = true
      ∧ shouldRetryStatus 409 = false := by
  refine ⟨rfl, rfl, rfl, rfl⟩

/-! ## Frame lemmas for the cached fields -/

/-- The patch phase returns the events it was handed, possibly extended by
one patch event. -/
theorem patchPhase_trace_prefix (env : Env) (np : Nat) (s : StoreState) (st : Cluster)
    (tr : List Event) :
    ∃ rest, (patchPhase env np s st tr).2.1 = tr ++ rest := by
  cases hlt : s.lastTopology with
  | none => exact ⟨[], by simp [patchPhase_nil_topology env np s st tr hlt]⟩
  | some lt =>
    cases hb : (buildPatch lt st).1 with
    | none => exact ⟨[], by simp [patchPhase_no_change env np s st tr lt hlt hb]⟩
    | some pb =>
      rcases hr : env.patch np with ⟨v, r2⟩
      cases r2 with
      | none =>
        exact ⟨_, by rw [patchPhase_submit_ok env np s st tr lt pb v hlt hb hr]⟩
      | some e =>
        exact ⟨_, by rw [patchPhase_submit_err env np s st tr lt pb v e hlt hb hr]⟩

/-- The patch phase leaves `lastTopology` alone unless a patch submission
succeeded, in which case the cache becomes the marshalled snapshot. -/
theorem patchPhase_topology_frame (env : Env) (np : Nat) (s : StoreState) (st : Cluster)
    (tr : List Event) :
    (patchPhase env np s st tr).1.lastTopology = s.lastTopology
      ∨ ((∃ v p r, Event.patch v p (r, none) ∈ (patchPhase env np s st tr).2.1)
          ∧ (patchPhase env np s st tr).1.lastTopology = some st.toJson) := by
  cases hlt : s.lastTopology with
  | none => rw [patchPhase_nil_topology env np s st tr hlt]; exact Or.inl hlt
  | some lt =>
    cases hb : (buildPatch lt st).1 with
    | none => rw [patchPhase_no_change env np s st tr lt hlt hb]; exact Or.inl hlt
    | some pb =>
      rcases hr : env.patch np with ⟨v, r2⟩
      cases r2 with
      | none =>
        rw [patchPhase_submit_ok env np s st tr lt pb v hlt hb hr]
        exact Or.inr ⟨⟨s.lastKnownVersion, pb, v, by simp⟩, rfl⟩
      | some e =>
        rw [patchPhase_submit_err env np s st tr lt pb v e hlt hb hr]
        exact Or.inl hlt

/-- One closure execution changes `lastTopology` only through a successful
fetch (to the fetched topology's marshalling) or a successful patch (to the
snapshot's marshalling). -/
theorem writeOnce_topology_frame (env : Env) (nf np : Nat) (s : StoreState) (st : Cluster) :
    (writeOnce env nf np s st).1.lastTopology = s.lastTopology
      ∨ (∃ c w, Event.fetch (.ok (c, w)) ∈ (writeOnce env nf np s st).2.1
          ∧ (writeOnce env nf np s st).1.lastTopology = some (Cluster.toJson c))
      ∨ ((∃ v p r, Event.patch v p (r, none) ∈ (writeOnce env nf np s st).2.1)
          ∧ (writeOnce env nf np s st).1.lastTopology = some st.toJson) := by
  by_cases hv : s.lastKnownVersion = ""
  · cases hf : env.fetch nf with
    | error e =>
      rw [writeOnce_fetch_err env nf np s st e hv hf]
      exact Or.inl rfl
    | ok cw =>
      rcases cw with ⟨c, w⟩
      rw [writeOnce_fetch_ok env nf np s st c w hv hf]
      rcases patchPhase_topology_frame env np
          { lastTopology := some c.toJson, lastKnownVersion := w } st [.fetch (.ok (c, w))]
        with h | ⟨hev, h⟩
      · refine Or.inr (Or.inl ⟨c, w, ?_, h⟩)
        obtain ⟨rest, hrest⟩ := patchPhase_trace_prefix env np
          { lastTopology := some c.toJson, lastKnownVersion := w } st [.fetch (.ok (c, w))]
        rw [hrest]
        simp
      · exact Or.inr (Or.inr ⟨hev, h⟩)
  · rw [writeOnce_no_fetch env nf np s st hv]
    rcases patchPhase_topology_frame env np s st [] with h | ⟨hev, h⟩
    · exact Or.inl h
    · exact Or.inr (Or.inr ⟨hev, h⟩)

/-- The whole retry loop changes `lastTopology` only through a successful
fetch or a successful patch recorded in its trace. -/
theorem writeLoop_topology_frame (env : Env) (fuel : Nat) :
    ∀ (nf np : Nat) (s : StoreState) (st : Cluster),
    (writeLoop env fuel nf np s st).1.lastTopology = s.lastTopology
      ∨ (∃ c w, Event.fetch (.ok (c, w)) ∈ (writeLoop env fuel nf np s st).2.1
          ∧ (writeLoop env fuel nf np s st).1.lastTopology = some (Cluster.toJson c))
      ∨ ((∃ v p r, Event.patch v p (r, none) ∈ (writeLoop env fuel nf np s st).2.1)
          ∧ (writeLoop env fuel nf np s st).1.lastTopology = some st.toJson) := by
  induction fuel with
  | zero =>
    intro nf np s st
    rcases ho : writeOnce env nf np s st with ⟨s1, tr1, out⟩
    have hwof := writeOnce_topology_frame env nf np s st
    rw [ho] at hwof
    dsimp only at hwof
    cases out with
    | success => rw [writeLoop_success env 0 nf np s s1 st tr1 ho]; exact hwof
    | permanent msg => rw [writeLoop_permanent env 0 nf np s s1 st tr1 msg ho]; exact hwof
    | retryable e => rw [writeLoop_retry_zero env nf np s s1 st tr1 e ho]; exact hwof
  | succ fuel ih =>
    intro nf np s st
    rcases ho : writeOnce env nf np s st with ⟨s1, tr1, out⟩
    have hwof := writeOnce_topology_frame env nf np s st
    rw [ho] at hwof
    dsimp only at hwof
    cases out with
    | success => rw [writeLoop_success env (fuel + 1) nf np s s1 st tr1 ho]; exact hwof
    | permanent msg =>
      rw [writeLoop_permanent env (fuel + 1) nf np s s1 st tr1 msg ho]
      exact hwof
    | retryable e =>
      rw [writeLoop_retry_succ env fuel nf np s s1 st tr1 e ho]
      dsimp only
      rcases ih (nf + countFetch tr1) (np + countPatch tr1) s1 st with
        h | ⟨c, w, hev, h⟩ | ⟨⟨v, p, r, hev⟩, h⟩
      · rcases hwof with h0 | ⟨c, w, hev, h0⟩ | ⟨⟨v, p, r, hev⟩, h0⟩
        · exact Or.inl (h.trans h0)
        · exact Or.inr (Or.inl ⟨c, w, List.mem_append.mpr (Or.inl hev), h.trans h0⟩)
        · exact Or.inr (Or.inr ⟨⟨v, p, r, List.mem_append.mpr (Or.inl hev)⟩, h.trans h0⟩)
      · exact Or.inr (Or.inl ⟨c, w, List.mem_append.mpr (Or.inr hev), h⟩)
      · exact Or.inr (Or.inr ⟨⟨v, p, r, List.mem_append.mpr (Or.inr hev)⟩, h⟩)

/-! ## Claim C10 -/

/-- C10 (confirmed).  First part: whenever PatchTopology answers with an
error, the multiple assignment in `Store.Write` has already stored the
returned version into `lastKnownVersion` (so with the real client, which
returns `""` alongside every error, the cached version is empty after every
patch failure, fatal or retryable), while `lastTopology` keeps its previous
value.  Second part: across a whole `Write`, `lastTopology` either survives
untouched or was overwritten by a successful fetch (to the fetched
topology's marshalling) or by a successful patch (to the submitted
snapshot's marshalling) — no error path resets it. -/
theorem claim10_version_overwritten_topology_framed :
    (∀ (env : Env) (np : Nat) (s : StoreState) (st : Cluster) (tr : List Event)
       (lt : Json) (pb v : String) (e : PlatformError),
      s.lastTopology = some lt → (buildPatch lt st).1 = some pb →
      env.patch np = (v, some e) →
      (patchPhase env np s st tr).1.lastKnownVersion = v
        ∧ (patchPhase env np s st tr).1.lastTopology = s.lastTopology)
    ∧ (∀ (env : Env) (fuel nf np : Nat) (s : StoreState) (st : Cluster),
        (writeLoop env fuel nf np s st).1.lastTopology = s.lastTopology
          ∨ (∃ c w, Event.fetch (.ok (c, w)) ∈ (writeLoop env fuel nf np s st).2.1
              ∧ (writeLoop env fuel nf np s st).1.lastTopology = some (Cluster.toJson c))
          ∨ ((∃ v p r, Event.patch v p (r, none) ∈ (writeLoop env fuel nf np s st).2.1)
              ∧ (writeLoop env fuel nf np s st).1.lastTopology = some st.toJson)) := by
  constructor
  · intro env np s st tr lt pb v e hlt hb hr
    rw [patchPhase_submit_err env np s st tr lt pb v e hlt hb hr]
    exact ⟨rfl, rfl⟩
  · intro env fuel nf np s st
    exact writeLoop_topology_frame env fuel nf np s st

/-- Concrete instantiation of C10's first part: a store caching
topology-one at version "version-1", hit by a retryable 409 whose response
carries the empty version, ends the patch phase with `lastKnownVersion = ""`
and `lastTopology` still caching topology-one. -/
theorem claim10_witness :
    (patchPhase
        { fetch := fun _ => .ok (clusterOne, "version-1")
          patch := fun _ => ("", some (.api 409 true "conflict")) }
        0
        { lastTopology := some clusterOne.toJson, lastKnownVersion := "version-1" }
        clusterFortyTwo []).1.lastKnownVersion = ""
      ∧ (patchPhase
          { fetch := fun _ => .ok (clusterOne, "version-1")
            patch := fun _ => ("", some (.api 409 true "conflict")) }
          0
          { lastTopology := some clusterOne.toJson, lastKnownVersion := "version-1" }
          clusterFortyTwo []).1.lastTopology = some clusterOne.toJson :=
  claim10_version_overwritten_topology_framed.1
    { fetch := fun _ => .ok (clusterOne, "version-1")
      patch := fun _ => ("", some (.api 409 true "conflict")) }
    0
    { lastTopology := some clusterOne.toJson, lastKnownVersion := "version-1" }
    clusterFortyTwo [] clusterOne.toJson
    ((buildPatch clusterOne.toJson clusterFortyTwo).1.getD "")
    "" (.api 409 true "conflict") rfl (by rfl) rfl

/-- A `Write` entered with no cached version issues a FetchTopology call
before anything else: its trace begins with the fetch event. -/
theorem writeLoop_starts_with_fetch (env : Env) (fuel nf np : Nat) (s : StoreState)
    (st : Cluster) (hv : s.lastKnownVersion = "") :
    ∃ rest, (writeLoop env fuel nf np s st).2.1 = Event.fetch (env.fetch nf) :: rest := by
  cases hf : env.fetch nf with
  | error e =>
    rw [writeLoop_permanent env fuel nf np s s st [.fetch (.error e)]
      ("fetch topology: " ++ errMessage e) (writeOnce_fetch_err env nf np s st e hv hf)]
    exact ⟨[], rfl⟩
  | ok cw =>
    rcases cw with ⟨c, w⟩
    have ho := writeOnce_fetch_ok env nf np s st c w hv hf
    obtain ⟨rest1, hrest1⟩ := patchPhase_trace_prefix env np
      { lastTopology := some c.toJson, lastKnownVersion := w } st [.fetch (.ok (c, w))]
    rcases hp : patchPhase env np
        { lastTopology := some c.toJson, lastKnownVersion := w } st [.fetch (.ok (c, w))]
      with ⟨s1, tr1, out⟩
    rw [hp] at ho hrest1
    dsimp only at hrest1
    cases out with
    | success =>
      rw [writeLoop_success env fuel nf np s s1 st tr1 ho]
      exact ⟨rest1, by simpa using hrest1⟩
    | permanent msg =>
      rw [writeLoop_permanent env fuel nf np s s1 st tr1 msg ho]
      exact ⟨rest1, by simpa using hrest1⟩
    | retryable e =>
      cases fuel with
      | zero =>
        rw [writeLoop_retry_zero env nf np s s1 st tr1 e ho]
        exact ⟨rest1, by simpa using hrest1⟩
      | succ fuel =>
        rw [writeLoop_retry_succ env fuel nf np s s1 st tr1 e ho]
        refine ⟨rest1 ++ (writeLoop env fuel (nf + countFetch tr1) (np + countPatch tr1)
          s1 st).2.1, ?_⟩
        dsimp only
        rw [hrest1]
        simp

/-! ## Claim C3 -/

/-- C3 (corrected).  What actually happens on a fatal `Write` outcome from a
non-retryable patch error: the closure returns the permanent
"patch topology:" error with `lastKnownVersion` overwritten by the version
the client returned *alongside* the error — empty for the real client, which
is the only reason the following `Write` starts with a fetch — while
`lastTopology` keeps its cached value instead of being cleared.  (The other
fatal sources cannot clear state either: a fetch error returns before any
assignment, and an encode error is unreachable for this data model.) -/
theorem claim3_fatal_patch_keeps_topology :
    (∀ (env : Env) (np : Nat) (s : StoreState) (st : Cluster) (tr : List Event)
       (lt : Json) (pb v : String) (e : PlatformError),
      s.lastTopology = some lt → (buildPatch lt st).1 = some pb →
      env.patch np = (v, some e) → isRetryableErr e = false →
      patchPhase env np s st tr
        = ({ lastTopology := s.lastTopology, lastKnownVersion := v },
           tr ++ [.patch s.lastKnownVersion pb (v, some e)],
           .permanent ("patch topology: " ++ errMessage e)))
    ∧ (∀ (env : Env) (fuel nf np : Nat) (s : StoreState) (st : Cluster),
        s.lastKnownVersion = "" →
        ∃ rest, (writeLoop env fuel nf np s st).2.1 = Event.fetch (env.fetch nf) :: rest) := by
  constructor
  · intro env np s st tr lt pb v e hlt hb hr hre
    rw [patchPhase_submit_err env np s st tr lt pb v e hlt hb hr, hre]
    rfl
  · intro env fuel nf np s st hv
    exact writeLoop_starts_with_fetch env fuel nf np s st hv

/-- The C3 scenario evaluated end to end: cold start, fetch succeeds with
"version-1", the patch is rejected fatally (400, version "" in the reply). -/
def envC3 : Env :=
  { fetch := fun _ => .ok (clusterOne, "version-1")
    patch := fun _ => ("", some (.api 400 false "boom")) }

set_option maxRecDepth 4000 in
/-- C3's counterexample: after the fatal patch error, `Write` has returned
the wrapped error and `lastKnownVersion` is empty, but `lastTopology` still
holds the fetched topology's bytes — it is *not* cleared to its empty value,
contradicting the claim. -/
theorem claim3_counterexample :
    (write envC3 1 {} clusterFortyTwo).2.2
        = .error "patch topology: failed with code 400: boom"
      ∧ (write envC3 1 {} clusterFortyTwo).1.lastTopology = some clusterOne.toJson
      ∧ (write envC3 1 {} clusterFortyTwo).1.lastTopology ≠ none := by
  refine ⟨rfl, rfl, ?_⟩
  intro h
  rw [show (write envC3 1 {} clusterFortyTwo).1.lastTopology = some clusterOne.toJson
    from rfl] at h
  cases h

/-- Concrete instantiation of C3's amended statement: the fatal-400 patch
phase ends with the returned empty version and the untouched topology cache,
and a subsequent cold `Write` leads with a fetch event. -/
theorem claim3_witness :
    patchPhase envC3 0
        { lastTopology := some clusterOne.toJson, lastKnownVersion := "version-1" }
        clusterFortyTwo []
      = ({ lastTopology := some clusterOne.toJson, lastKnownVersion := "" },
         [.patch "version-1" ((buildPatch clusterOne.toJson clusterFortyTwo).1.getD "")
           ("", some (.api 400 false "boom"))],
         .permanent ("patch topology: " ++ errMessage (.api 400 false "boom")))
      ∧ ∃ rest, (writeLoop envC3 1 0 0 { lastTopology := none, lastKnownVersion := "" }
          clusterFortyTwo).2.1 = Event.fetch (envC3.fetch 0) :: rest :=
  ⟨claim3_fatal_patch_keeps_topology.1 envC3 0
      { lastTopology := some clusterOne.toJson, lastKnownVersion := "version-1" }
      clusterFortyTwo [] clusterOne.toJson
      ((buildPatch clusterOne.toJson clusterFortyTwo).1.getD "") "" (.api 400 false "boom")
      rfl (by rfl) rfl rfl,
    claim3_fatal_patch_keeps_topology.2 envC3 1 0 0
      { lastTopology := none, lastKnownVersion := "" } clusterFortyTwo rfl⟩

/-! ## Claim C5 -/

/-- C5 (corrected).  The fetch-error branch itself mutates nothing: when the
cached version is empty (the only state in which `Store.Write` fetches) and
FetchTopology fails, the whole `Write` returns the "fetch topology:"-wrapped
error with the cached fields exactly as they were when the fetch was issued
— so the next `Write`, still without a version, leads with a fetch again.
On a cold-start `Write` this is the state from before the call, but the
fields need not equal their values from before the call in general: a
retryable patch failure earlier in the same `Write` already blanked
`lastKnownVersion` (see the counterexample). -/
theorem claim5_fetch_error_frame :
    (∀ (env : Env) (fuel nf np : Nat) (s : StoreState) (st : Cluster) (e : PlatformError),
      s.lastKnownVersion = "" → env.fetch nf = .error e →
      writeLoop env fuel nf np s st
        = (s, [.fetch (.error e)], .error ("fetch topology: " ++ errMessage e)))
    ∧ (∀ (env : Env) (fuel nf np : Nat) (s : StoreState) (st : Cluster),
        s.lastKnownVersion = "" →
        ∃ rest, (writeLoop env fuel nf np s st).2.1 = Event.fetch (env.fetch nf) :: rest) := by
  constructor
  · intro env fuel nf np s st e hv hf
    exact writeLoop_permanent env fuel nf np s s st [.fetch (.error e)]
      ("fetch topology: " ++ errMessage e) (writeOnce_fetch_err env nf np s st e hv hf)
  · intro env fuel nf np s st hv
    exact writeLoop_starts_with_fetch env fuel nf np s st hv

/-- The C5 scenario: a store with baseline "version-1", a platform whose
patch answer is a retryable 409 with empty version and whose fetch then
fails. -/
def envC5 : Env :=
  { fetch := fun _ => .error (.other "boom")
    patch := fun _ => ("", some (.api 409 true "conflict")) }

set_option maxRecDepth 4000 in
/-- C5's counterexample: FetchTopology fails during this `Write` (after a
retryable patch failure), `Write` returns the "fetch topology:" error — yet
`lastKnownVersion` is now empty, not the "version-1" it held before the
call, contradicting "hold exactly the values they had before the call". -/
theorem claim5_counterexample :
    (write envC5 1
        { lastTopology := some clusterOne.toJson, lastKnownVersion := "version-1" }
        clusterFortyTwo).2.2 = .error "fetch topology: boom"
      ∧ (write envC5 1
          { lastTopology := some clusterOne.toJson, lastKnownVersion := "version-1" }
          clusterFortyTwo).1.lastKnownVersion = ""
      ∧ ("" : String) ≠ "version-1" := by
  refine ⟨rfl, rfl, by decide⟩

/-- Concrete instantiation of C5's amended statement: with an empty cached
version and a failing fetch, `Write` returns the wrapped error and the exact
entry state. -/
theorem claim5_witness :
    writeLoop envC5 1 0 0 { lastTopology := none, lastKnownVersion := "" } clusterFortyTwo
      = ({ lastTopology := none, lastKnownVersion := "" },
         [.fetch (.error (.other "boom"))], .error "fetch topology: boom") :=
  claim5_fetch_error_frame.1 envC5 1 0 0
    { lastTopology := none, lastKnownVersion := "" } clusterFortyTwo (.other "boom") rfl rfl

/-- Exhaustive description of a patch phase: either no patch was submitted
(nothing changed, no event appended, and the outcome is success or the
unreachable nil-cache error), or exactly one patch event was appended, with
the submitted version being the cached one and the response determining
state and outcome. -/
theorem patchPhase_split (env : Env) (np : Nat) (s0 : StoreState) (st : Cluster)
    (pre : List Event) :
    ((patchPhase env np s0 st pre).2.1 = pre
      ∧ (patchPhase env np s0 st pre).1 = s0
      ∧ ((patchPhase env np s0 st pre).2.2 = .success
          ∨ (patchPhase env np s0 st pre).2.2
              = .permanent "build topology patch: unexpected end of JSON input"))
    ∨ (∃ pb v,
        (env.patch np = (v, none)
          ∧ patchPhase env np s0 st pre
              = ({ lastTopology := some st.toJson, lastKnownVersion := v },
                 pre ++ [.patch s0.lastKnownVersion pb (v, none)], .success))
        ∨ (∃ e, env.patch np = (v, some e)
            ∧ patchPhase env np s0 st pre
                = ({ s0 with lastKnownVersion := v },
                   pre ++ [.patch s0.lastKnownVersion pb (v, some e)],
                   if isRetryableErr e then .retryable e
                   else .permanent ("patch topology: " ++ errMessage e)))) := by
  cases hlt : s0.lastTopology with
  | none =>
    rw [patchPhase_nil_topology env np s0 st pre hlt]
    exact Or.inl ⟨rfl, rfl, Or.inr rfl⟩
  | some lt =>
    cases hb : (buildPatch lt st).1 with
    | none =>
      rw [patchPhase_no_change env np s0 st pre lt hlt hb]
      exact Or.inl ⟨rfl, rfl, Or.inl rfl⟩
    | some pb =>
      rcases hr : env.patch np with ⟨v, r2⟩
      cases r2 with
      | none =>
        rw [patchPhase_submit_ok env np s0 st pre lt pb v hlt hb hr]
        exact Or.inr ⟨pb, v, Or.inl ⟨rfl, rfl⟩⟩
      | some e =>
        rw [patchPhase_submit_err env np s0 st pre lt pb v e hlt hb hr]
        exact Or.inr ⟨pb, v, Or.inr ⟨e, rfl, by rw [hlt]⟩⟩

/-- A `Write` entered without a cached version produces a trace that starts
with exactly one fetch, and whose first patch attempt — if any — carries the
freshly fetched version. -/
theorem nextBlockOk_of_fresh (env : Env) (fuel nf np : Nat) (s : StoreState) (st : Cluster)
    (hv : s.lastKnownVersion = "") :
    nextBlockOk (writeLoop env fuel nf np s st).2.1 = true := by
  cases hf : env.fetch nf with
  | error e =>
    rw [writeLoop_permanent env fuel nf np s s st [.fetch (.error e)]
      ("fetch topology: " ++ errMessage e) (writeOnce_fetch_err env nf np s st e hv hf)]
    rfl
  | ok cw =>
    rcases cw with ⟨c, w⟩
    have ho := writeOnce_fetch_ok env nf np s st c w hv hf
    rcases patchPhase_split env np { lastTopology := some c.toJson, lastKnownVersion := w }
        st [.fetch (.ok (c, w))] with ⟨htr, hst, hout | hout⟩ | ⟨pb, v, hcase⟩
    · rcases hp : patchPhase env np { lastTopology := some c.toJson, lastKnownVersion := w }
          st [.fetch (.ok (c, w))] with ⟨s1, tr1, out⟩
      rw [hp] at ho htr hout
      dsimp only at htr hout
      subst htr
      subst hout
      rw [writeLoop_success env fuel nf np s s1 st [.fetch (.ok (c, w))] ho]
      rfl
    · rcases hp : patchPhase env np { lastTopology := some c.toJson, lastKnownVersion := w }
          st [.fetch (.ok (c, w))] with ⟨s1, tr1, out⟩
      rw [hp] at ho htr hout
      dsimp only at htr hout
      subst htr
      subst hout
      rw [writeLoop_permanent env fuel nf np s s1 st [.fetch (.ok (c, w))] _ ho]
      rfl
    · rcases hcase with ⟨hr, hp⟩ | ⟨e, hr, hp⟩
      · rw [hp] at ho
        rw [writeLoop_success env fuel nf np s _ st _ ho]
        simp [nextBlockOk]
      · rw [hp] at ho
        by_cases hre : isRetryableErr e
        · rw [if_pos hre] at ho
          cases fuel with
          | zero =>
            rw [writeLoop_retry_zero env nf np s _ st _ e ho]
            simp [nextBlockOk]
          | succ fuel =>
            rw [writeLoop_retry_succ env fuel nf np s _ st _ e ho]
            simp [nextBlockOk]
        · rw [if_neg hre] at ho
          rw [writeLoop_permanent env fuel nf np s _ st _ _ ho]
          simp [nextBlockOk]

/-! ## Claim C2 -/

/-- C2 (confirmed).  For a platform client that returns the empty version
alongside every patch error (as the real client does), every trace a `Write`
can produce observes the re-fetch discipline `goodAfterRetry`: after a patch
attempt fails retryably, either the call ends, or exactly one FetchTopology
call happens before the next PatchTopology attempt, and that next attempt is
submitted with the version the intervening fetch returned — never re-using
the version that was just rejected without re-fetching it. -/
theorem claim2_refetch_between_patch_attempts (env : Env)
    (henv : ∀ n, (env.patch n).2.isSome → (env.patch n).1 = "") :
    ∀ (fuel nf np : Nat) (s : StoreState) (st : Cluster),
    goodAfterRetry (writeLoop env fuel nf np s st).2.1 = true := by
  intro fuel
  induction fuel with
  | zero =>
    intro nf np s st
    by_cases hv : s.lastKnownVersion = ""
    · cases hf : env.fetch nf with
      | error e =>
        rw [writeLoop_permanent env 0 nf np s s st [.fetch (.error e)]
          ("fetch topology: " ++ errMessage e) (writeOnce_fetch_err env nf np s st e hv hf)]
        rfl
      | ok cw =>
        rcases cw with ⟨c, w⟩
        have ho := writeOnce_fetch_ok env nf np s st c w hv hf
        rcases patchPhase_split env np
            { lastTopology := some c.toJson, lastKnownVersion := w } st
            [.fetch (.ok (c, w))] with ⟨htr, hst, hout | hout⟩ | ⟨pb, v, hcase⟩
        · rcases hp : patchPhase env np
              { lastTopology := some c.toJson, lastKnownVersion := w } st
              [.fetch (.ok (c, w))] with ⟨s1, tr1, out⟩
          rw [hp] at ho htr hout
          dsimp only at htr hout
          subst htr
          subst hout
          rw [writeLoop_success env 0 nf np s s1 st [.fetch (.ok (c, w))] ho]
          rfl
        · rcases hp : patchPhase env np
              { lastTopology := some c.toJson, lastKnownVersion := w } st
              [.fetch (.ok (c, w))] with ⟨s1, tr1, out⟩
          rw [hp] at ho htr hout
          dsimp only at htr hout
          subst htr
          subst hout
          rw [writeLoop_permanent env 0 nf np s s1 st [.fetch (.ok (c, w))] _ ho]
          rfl
        · rcases hcase with ⟨hr, hp⟩ | ⟨e, hr, hp⟩
          · rw [hp] at ho
            rw [writeLoop_success env 0 nf np s _ st _ ho]
            simp [goodAfterRetry]
          · rw [hp] at ho
            by_cases hre : isRetryableErr e
            · rw [if_pos hre] at ho
              rw [writeLoop_retry_zero env nf np s _ st _ e ho]
              simp [goodAfterRetry, nextBlockOk, hre]
            · rw [if_neg hre] at ho
              rw [writeLoop_permanent env 0 nf np s _ st _ _ ho]
              simp [goodAfterRetry, hre]
    · have ho := writeOnce_no_fetch env nf np s st hv
      rcases patchPhase_split env np s st [] with ⟨htr, hst, hout | hout⟩ | ⟨pb, v, hcase⟩
      · rcases hp : patchPhase env np s st [] with ⟨s1, tr1, out⟩
        rw [hp] at ho htr hout
        dsimp only at htr hout
        subst htr
        subst hout
        rw [writeLoop_success env 0 nf np s s1 st [] ho]
        rfl
      · rcases hp : patchPhase env np s st [] with ⟨s1, tr1, out⟩
        rw [hp] at ho htr hout
        dsimp only at htr hout
        subst htr
        subst hout
        rw [writeLoop_permanent env 0 nf np s s1 st [] _ ho]
        rfl
      · rcases hcase with ⟨hr, hp⟩ | ⟨e, hr, hp⟩
        · rw [hp] at ho
          rw [writeLoop_success env 0 nf np s _ st _ ho]
          simp [goodAfterRetry]
        · rw [hp] at ho
          by_cases hre : isRetryableErr e
          · rw [if_pos hre] at ho
            rw [writeLoop_retry_zero env nf np s _ st _ e ho]
            simp [goodAfterRetry, nextBlockOk, hre]
          · rw [if_neg hre] at ho
            rw [writeLoop_permanent env 0 nf np s _ st _ _ ho]
            simp [goodAfterRetry, hre]
  | succ fuel ih =>
    intro nf np s st
    by_cases hv : s.lastKnownVersion = ""
    · cases hf : env.fetch nf with
      | error e =>
        rw [writeLoop_permanent env (fuel + 1) nf np s s st [.fetch (.error e)]
          ("fetch topology: " ++ errMessage e) (writeOnce_fetch_err env nf np s st e hv hf)]
        rfl
      | ok cw =>
        rcases cw with ⟨c, w⟩
        have ho := writeOnce_fetch_ok env nf np s st c w hv hf
        rcases patchPhase_split env np
            { lastTopology := some c.toJson, lastKnownVersion := w } st
            [.fetch (.ok (c, w))] with ⟨htr, hst, hout | hout⟩ | ⟨pb, v, hcase⟩
        · rcases hp : patchPhase env np
              { lastTopology := some c.toJson, lastKnownVersion := w } st
              [.fetch (.ok (c, w))] with ⟨s1, tr1, out⟩
          rw [hp] at ho htr hout
          dsimp only at htr hout
          subst htr
          subst hout
          rw [writeLoop_success env (fuel + 1) nf np s s1 st [.fetch (.ok (c, w))] ho]
          rfl
        · rcases hp : patchPhase env np
              { lastTopology := some c.toJson, lastKnownVersion := w } st
              [.fetch (.ok (c, w))] with ⟨s1, tr1, out⟩
          rw [hp] at ho htr hout
          dsimp only at htr hout
          subst htr
          subst hout
          rw [writeLoop_permanent env (fuel + 1) nf np s s1 st [.fetch (.ok (c, w))] _ ho]
          rfl
        · rcases hcase with ⟨hr, hp⟩ | ⟨e, hr, hp⟩
          · rw [hp] at ho
            rw [writeLoop_success env (fuel + 1) nf np s _ st _ ho]
            simp [goodAfterRetry]
          · have hvz : v = "" := by
              have hh := henv np (by rw [hr]; rfl)
              rw [hr] at hh
              exact hh
            subst hvz
            rw [hp] at ho
            by_cases hre : isRetryableErr e
            · rw [if_pos hre] at ho
              have ho' : writeOnce env nf np s st
                  = ({ lastTopology := some c.toJson, lastKnownVersion := "" },
                     [.fetch (.ok (c, w)), .patch w pb ("", some e)], .retryable e) := by
                rw [ho]
                rfl
              rw [writeLoop_retry_succ env fuel nf np s _ st _ e ho']
              dsimp only
              have hgood := ih
                (nf + countFetch [.fetch (.ok (c, w)), .patch w pb ("", some e)])
                (np + countPatch [.fetch (.ok (c, w)), .patch w pb ("", some e)])
                { lastTopology := some c.toJson, lastKnownVersion := "" } st
              have hblock := nextBlockOk_of_fresh env fuel
                (nf + countFetch [.fetch (.ok (c, w)), .patch w pb ("", some e)])
                (np + countPatch [.fetch (.ok (c, w)), .patch w pb ("", some e)])
                { lastTopology := some c.toJson, lastKnownVersion := "" } st rfl
              simp only [goodAfterRetry, hre, if_true, List.cons_append, List.append_eq,
                List.nil_append]
              rw [hblock, hgood]
              rfl
            · rw [if_neg hre] at ho
              rw [writeLoop_permanent env (fuel + 1) nf np s _ st _ _ ho]
              simp [goodAfterRetry, hre]
    · have ho := writeOnce_no_fetch env nf np s st hv
      rcases patchPhase_split env np s st [] with ⟨htr, hst, hout | hout⟩ | ⟨pb, v, hcase⟩
      · rcases hp : patchPhase env np s st [] with ⟨s1, tr1, out⟩
        rw [hp] at ho htr hout
        dsimp only at htr hout
        subst htr
        subst hout
        rw [writeLoop_success env (fuel + 1) nf np s s1 st [] ho]
        rfl
      · rcases hp : patchPhase env np s st [] with ⟨s1, tr1, out⟩
        rw [hp] at ho htr hout
        dsimp only at htr hout
        subst htr
        subst hout
        rw [writeLoop_permanent env (fuel + 1) nf np s s1 st [] _ ho]
        rfl
      · rcases hcase with ⟨hr, hp⟩ | ⟨e, hr, hp⟩
        · rw [hp] at ho
          rw [writeLoop_success env (fuel + 1) nf np s _ st _ ho]
          simp [goodAfterRetry]
        · have hvz : v = "" := by
            have hh := henv np (by rw [hr]; rfl)
            rw [hr] at hh
            exact hh
          subst hvz
          rw [hp] at ho
          by_cases hre : isRetryableErr e
          · rw [if_pos hre] at ho
            have ho' : writeOnce env nf np s st
                = ({ s with lastKnownVersion := "" },
                   [.patch s.lastKnownVersion pb ("", some e)], .retryable e) := by
              rw [ho]
              rfl
            rw [writeLoop_retry_succ env fuel nf np s _ st _ e ho']
            dsimp only
            have hgood := ih
              (nf + countFetch [Event.patch s.lastKnownVersion pb ("", some e)])
              (np + countPatch [Event.patch s.lastKnownVersion pb ("", some e)])
              { s with lastKnownVersion := "" } st
            have hblock := nextBlockOk_of_fresh env fuel
              (nf + countFetch [Event.patch s.lastKnownVersion pb ("", some e)])
              (np + countPatch [Event.patch s.lastKnownVersion pb ("", some e)])
              { s with lastKnownVersion := "" } st rfl
            simp only [goodAfterRetry, hre, if_true, List.append_eq, List.nil_append]
            rw [hblock, hgood]
            rfl
          · rw [if_neg hre] at ho
            rw [writeLoop_permanent env (fuel + 1) nf np s _ st _ _ ho]
            simp [goodAfterRetry, hre]

/-- Concrete instantiation of C2: against a platform that always answers the
patch with a retryable 409 (and the empty version), a `Write` run with a
two-sleep backoff produces a trace satisfying the re-fetch discipline. -/
theorem claim2_witness :
    goodAfterRetry (writeLoop
      { fetch := fun _ => .ok (clusterOne, "version-2")
        patch := fun _ => ("", some (.api 409 true "conflict")) }
      2 0 0 { lastTopology := some clusterOne.toJson, lastKnownVersion := "version-1" }
      clusterFortyTwo).2.1 = true :=
  claim2_refetch_between_patch_attempts
    { fetch := fun _ => .ok (clusterOne, "version-2")
      patch := fun _ => ("", some (.api 409 true "conflict")) }
    (fun _ _ => rfl) 2 0 0
    { lastTopology := some clusterOne.toJson, lastKnownVersion := "version-1" }
    clusterFortyTwo

/-! ## Claim C1 -/

/-- Sorting the marshalling of a `Cluster` yields an object, namely the
object of its own member list. -/
theorem sortJson_toJson_shape (c : Cluster) :
    sortJson c.toJson = Json.obj (objFields (sortJson c.toJson)) := rfl

/-- C1 (corrected).  Amended round-trip law: whenever `buildPatch` emits a
patch (the snapshots marshal to different bytes), that patch is the encoding
of `jsonpatch.CreateMergePatch(encode(prev), encode(next))`; and provided the
new snapshot marshals without `null` members and the two snapshots are
distinct as canonical JSON documents, the patch is a non-empty object and
applying it to the canonical form of `encode(prev)` under RFC 7396 yields
bytes equal to the canonical form of `encode(next)`.  The original claim,
quantifying over all distinct snapshot pairs, fails: a nil slice or map (and
every `Service.selector` left nil) marshals to a `null` member, which the
diff emits as a deletion, so the merged document drops the member that
`encode(next)` spells `null` — see the counterexample. -/
theorem claim1_merge_patch_round_trip (prev next : Cluster) (p : String)
    (hdp : nodupKeysJson prev.toJson = true)
    (hdn : nodupKeysJson next.toJson = true)
    (hnf : nullFree (sortJson next.toJson) = true)
    (hne : sortJson prev.toJson ≠ sortJson next.toJson)
    (hp : (buildPatch prev.toJson next).1 = some p) :
    p = encodeJson (createMergePatch prev.toJson next.toJson)
      ∧ createMergePatch prev.toJson next.toJson ≠ Json.obj []
      ∧ encodeJson (mergePatch (sortJson prev.toJson)
            (createMergePatch prev.toJson next.toJson))
          = encodeJson (sortJson next.toJson) := by
  have hA : sortJson prev.toJson = Json.obj (objFields (sortJson prev.toJson)) :=
    sortJson_toJson_shape prev
  have hB : sortJson next.toJson = Json.obj (objFields (sortJson next.toJson)) :=
    sortJson_toJson_shape next
  have hcA : canonical (sortJson prev.toJson) = true :=
    canonical_sortJson (sizeOf prev.toJson) prev.toJson le_rfl hdp
  have hcB : canonical (sortJson next.toJson) = true :=
    canonical_sortJson (sizeOf next.toJson) next.toJson le_rfl hdn
  rw [hA, canonical_obj, Bool.and_eq_true] at hcA
  rw [hB, canonical_obj, Bool.and_eq_true] at hcB
  rw [hB, nullFree_obj] at hnf
  refine ⟨?_, ?_, ?_⟩
  · simp only [buildPatch] at hp
    by_cases hb : encodeJson next.toJson = encodeJson prev.toJson
    · rw [if_pos hb] at hp
      simp at hp
    · rw [if_neg hb] at hp
      exact (Option.some.inj hp).symm
  · intro hemp
    have hd : getDiff (objFields (sortJson prev.toJson))
        (objFields (sortJson next.toJson)) = [] := by
      have hfs := congrArg objFields hemp
      simpa [createMergePatch, objFields] using hfs
    have heq := getDiff_eq_nil
      (sizeOf (objFields (sortJson prev.toJson)) + sizeOf (objFields (sortJson next.toJson)))
      (objFields (sortJson prev.toJson)) (objFields (sortJson next.toJson)) le_rfl
      hcA.1 hcA.2 hcB.1 hcB.2 hd
    exact hne (hA.trans (by rw [heq, ← hB]))
  · have hmf := mergeFields_getDiff
      (sizeOf (objFields (sortJson prev.toJson)) + sizeOf (objFields (sortJson next.toJson)))
      (objFields (sortJson prev.toJson)) (objFields (sortJson next.toJson)) le_rfl
      hcA.1 hcA.2 hcB.1 hcB.2 hnf
    simp only [createMergePatch]
    rw [mergePatch_obj, hmf, ← hB]

/-- The old snapshot of the C1 counterexample: one namespace is listed. -/
def prevNullC1 : Cluster :=
  { namespaces := some ["a"] }

/-- The new snapshot of the C1 counterexample: every collection is nil, so
`Namespaces` (among others) marshals to `null`. -/
def nextNullC1 : Cluster :=
  {}

set_option maxRecDepth 8000 in
/-- C1 counterexample: for these two distinct snapshots `buildPatch` does
emit a patch (containing the member `"Namespaces":null`), but applying that
patch to the canonical encoding of the old snapshot deletes the `Namespaces`
member outright, while the encoding of the new snapshot spells it
`"Namespaces":null` — the resulting bytes are not equal, refuting the
round-trip law as claimed. -/
theorem claim1_counterexample :
    (buildPatch prevNullC1.toJson nextNullC1).1
        = some (encodeJson (createMergePatch prevNullC1.toJson nextNullC1.toJson))
      ∧ encodeJson (mergePatch (sortJson prevNullC1.toJson)
            (createMergePatch prevNullC1.toJson nextNullC1.toJson))
          ≠ encodeJson (sortJson nextNullC1.toJson) := by
  exact ⟨rfl, by decide⟩

/-- The old snapshot of the C1 witness: every collection present (possibly
empty), so nothing marshals to `null`. -/
def prevFullC1 : Cluster :=
  { id := "cluster-1"
    overview := { ingressControllerTypes := some [] }
    namespaces := some ["ns"]
    apps := some []
    ingresses := some []
    ingressRoutes := some []
    services := some []
    ingressControllers := some []
    accessControlPolicies := some []
    tlsOptions := some []
    traefikServiceNames := some [] }

/-- The new snapshot of the C1 witness: the same cluster under a new ID. -/
def nextFullC1 : Cluster :=
  { prevFullC1 with id := "cluster-2" }

set_option maxRecDepth 8000 in
/-- Concrete instantiation of C1 at a null-free snapshot pair: the patch is
non-empty and merging it into the canonical old document reproduces the
canonical new document byte for byte. -/
theorem claim1_witness :
    encodeJson (createMergePatch prevFullC1.toJson nextFullC1.toJson)
        = encodeJson (createMergePatch prevFullC1.toJson nextFullC1.toJson)
      ∧ createMergePatch prevFullC1.toJson nextFullC1.toJson ≠ Json.obj []
      ∧ encodeJson (mergePatch (sortJson prevFullC1.toJson)
            (createMergePatch prevFullC1.toJson nextFullC1.toJson))
          = encodeJson (sortJson nextFullC1.toJson) :=
  claim1_merge_patch_round_trip prevFullC1 nextFullC1
    (encodeJson (createMergePatch prevFullC1.toJson nextFullC1.toJson))
    (by decide) (by decide) (by decide) (by decide) rfl

end Hub
